import Mathlib

/-!
USB serial transport (`Embedded/RC_Controller/comm_usb.c`).

A shallow embedding of the two circular byte buffers of `comm_usb.c`, of the
three thread loops that use them and of `send_packet`, followed by theorems
about them.

Conventions of the embedding.

* The four cursors are C `int`s that the program keeps non-negative; they are
  natural numbers here. A byte is a natural number (the program only copies
  bytes).
* A buffer is a function from index to byte, so that a store at any index is
  visible in the model.
* The size macros are parameters `C` of the definitions; the program's value is
  `SERIAL_RX_BUFFER_SIZE = SERIAL_TX_BUFFER_SIZE = 2048`.
* `unsigned int` arithmetic is integer arithmetic reduced modulo `2 ^ 32`.
* Calls into the operating system and the link are recorded in counters and
  logs of the state: `write_signals`, `process_signals`, `sleeps`, `link_tx`,
  `framer_rx`.
* While `send_packet` sleeps, the writer thread runs: `env k` is the number of
  iterations of the writer's drain loop that are executed during the sleep
  that starts when `k` sleeps have been counted.
* A loop of the program is a function with fuel that returns `none` when the
  fuel does not reach the exit of the loop; termination is proved as a result
  for enough fuel.
* `Fine` and `fine_step` describe one buffer under the interleaving in which
  the store of an incremented cursor and the store that wraps it to 0 are two
  steps, between which the other thread may run.
-/

namespace CommUsb

/-- Value of the macro `SERIAL_RX_BUFFER_SIZE`. -/
def SERIAL_RX_BUFFER_SIZE : Nat := 2048

/-- Value of the macro `SERIAL_TX_BUFFER_SIZE`. -/
def SERIAL_TX_BUFFER_SIZE : Nat := 2048

/-- One circular byte buffer: the array and its two cursors
(`serial_rx_buffer`, `serial_rx_read_pos`, `serial_rx_write_pos`, and the same
for `tx`). -/
structure Ring where
  buffer : Nat → Nat
  read_pos : Nat
  write_pos : Nat

/-- Store one byte and advance the write cursor:
`buf[write_pos++] = b; if (write_pos == SIZE) write_pos = 0;`
(lines 90-94 and 173-177). -/
def push_byte (C : Nat) (r : Ring) (b : Nat) : Ring :=
  let wp := r.write_pos + 1
  { buffer := Function.update r.buffer r.write_pos b
    read_pos := r.read_pos
    write_pos := if wp = C then 0 else wp }

/-- Take one byte and advance the read cursor:
`b = buf[read_pos++]; if (read_pos == SIZE) read_pos = 0;`
(lines 117-121 and 137-142). -/
def pop_byte (C : Nat) (r : Ring) : Nat × Ring :=
  let rp := r.read_pos + 1
  (r.buffer r.read_pos,
   { buffer := r.buffer
     read_pos := if rp = C then 0 else rp
     write_pos := r.write_pos })

/-- Occupancy formula of the specification (section 3):
`write_pos >= read_pos ? write_pos - read_pos : C - read_pos + write_pos`. -/
def occupancy (C : Nat) (r : Ring) : Nat :=
  if r.write_pos ≥ r.read_pos then r.write_pos - r.read_pos
  else C - r.read_pos + r.write_pos

/-- Unread bytes of a buffer, oldest first: the `occupancy` slots that start
at `read_pos`, taken modulo `C`. -/
def unread (C : Nat) (r : Ring) : List Nat :=
  (List.range (occupancy C r)).map (fun i => r.buffer ((r.read_pos + i) % C))

/-- State of the module: the static variables of `comm_usb.c` and the record
of its calls to the outside. -/
structure Comm where
  rx : Ring
  tx : Ring
  send_mutex : Bool
  process_signals : Nat
  write_signals : Nat
  sleeps : Nat
  link_tx : List Nat
  framer_rx : List Nat

/-- State after `comm_usb_init`: zeroed statics, mutex free, nothing logged. -/
def comm_init : Comm :=
  { rx := { buffer := fun _ => 0, read_pos := 0, write_pos := 0 }
    tx := { buffer := fun _ => 0, read_pos := 0, write_pos := 0 }
    send_mutex := false
    process_signals := 0
    write_signals := 0
    sleeps := 0
    link_tx := []
    framer_rx := [] }

/-- One iteration of the reader loop (lines 87-102); `data` is what
`chSequentialStreamRead` returned in this iteration. -/
def serial_read_thread_iter (C : Nat) (data : List Nat) (s : Comm) : Comm :=
  let s1 := data.foldl (fun st b => { st with rx := push_byte C st.rx b }) s
  if data.length > 0 then { s1 with process_signals := s1.process_signals + 1 } else s1

/-- One test of the processor's loop condition, and the loop body when it
holds (lines 116-122). -/
def serial_process_thread_iter (C : Nat) (s : Comm) : Comm :=
  if s.rx.read_pos ≠ s.rx.write_pos then
    let p := pop_byte C s.rx
    { s with rx := p.2, framer_rx := s.framer_rx ++ [p.1] }
  else s

/-- The processor's drain loop (lines 116-122); `none` when the fuel does not
reach the exit of the loop. -/
def serial_process_thread_drain (C : Nat) : Nat → Comm → Option Comm
  | 0, _ => none
  | fuel + 1, s =>
    if s.rx.read_pos ≠ s.rx.write_pos then
      serial_process_thread_drain C fuel (serial_process_thread_iter C s)
    else some s

/-- One test of the writer's loop condition, and the loop body when it holds
(lines 136-143). -/
def serial_write_thread_iter (C : Nat) (s : Comm) : Comm :=
  if s.tx.read_pos ≠ s.tx.write_pos then
    let p := pop_byte C s.tx
    { s with tx := p.2, link_tx := s.link_tx ++ [p.1] }
  else s

/-- The writer's drain loop (lines 136-143); `none` when the fuel does not
reach the exit of the loop. -/
def serial_write_thread_drain (C : Nat) : Nat → Comm → Option Comm
  | 0, _ => none
  | fuel + 1, s =>
    if s.tx.read_pos ≠ s.tx.write_pos then
      serial_write_thread_drain C fuel (serial_write_thread_iter C s)
    else some s

/-- First computation of `remaining` in `send_packet` (lines 152-155), with
the comparison `>`. -/
def remaining_first (C : Nat) (r : Ring) : Nat :=
  let v : Int :=
    if r.write_pos > r.read_pos then (r.write_pos : Int) - r.read_pos
    else (C : Int) - r.read_pos + r.write_pos
  let remaining : Int := v % 4294967296
  ((remaining - 1) % 4294967296).toNat

/-- Recomputation of `remaining` in the retry loop of `send_packet`
(lines 161-164), with the comparison `>=`. -/
def remaining_retry (C : Nat) (r : Ring) : Nat :=
  let v : Int :=
    if r.write_pos ≥ r.read_pos then (r.write_pos : Int) - r.read_pos
    else (C : Int) - r.read_pos + r.write_pos
  let remaining : Int := v % 4294967296
  ((remaining - 1) % 4294967296).toNat

/-- The call `chThdSleepMilliseconds(1)` of `send_packet`: the writer thread
performs `env s.sleeps` iterations of its loop, and the sleep is counted. -/
def chThdSleepMilliseconds (C : Nat) (env : Nat → Nat) (s : Comm) : Comm :=
  let s1 := (serial_write_thread_iter C)^[env s.sleeps] s
  { s1 with sleeps := s1.sleeps + 1 }

/-- The retry loop of `send_packet` (lines 158-170). The result is `none` when
the fuel does not reach the end of the loop, `some (false, s)` when the
function returns from inside the loop, `some (true, s)` when the loop is left
by its condition. The counter starts at 10 and the function returns when it is
0, so the decrement never wraps. -/
def send_packet_wait (C len : Nat) (env : Nat → Nat) :
    Nat → Nat → Nat → Comm → Option (Bool × Comm)
  | 0, _, _, _ => none
  | fuel + 1, timeout, remaining, s =>
    if len > remaining then
      let s1 := chThdSleepMilliseconds C env s
      let remaining1 := remaining_retry C s1.tx
      let timeout1 := timeout - 1
      if timeout1 = 0 then some (false, s1)
      else send_packet_wait C len env fuel timeout1 remaining1 s1
    else some (true, s)

/-- The function `send_packet` (lines 151-181) with `len = buffer.length`. -/
def send_packet (C fuel : Nat) (env : Nat → Nat) (buffer : List Nat) (s : Comm) :
    Option Comm :=
  let len := buffer.length
  let remaining := remaining_first C s.tx
  match send_packet_wait C len env fuel 10 remaining s with
  | none => none
  | some (false, s1) => some s1
  | some (true, s1) =>
    let s2 := { s1 with tx := buffer.foldl (push_byte C) s1.tx }
    some { s2 with write_signals := s2.write_signals + 1 }

/-- Acquire `send_mutex` (`chMtxLock`); `none` when the mutex is held, in which
case the caller is suspended and the call does not proceed in this model. -/
def chMtxLock (s : Comm) : Option Comm :=
  if s.send_mutex then none else some { s with send_mutex := true }

/-- Release `send_mutex` (`chMtxUnlock`). -/
def chMtxUnlock (s : Comm) : Comm :=
  { s with send_mutex := false }

/-- Modelled from the spec: the calls of the framer (`packet.c` is not among
the sources) to its output sink `send_packet`, one call for each frame, in
order and synchronously. The result is the state after the last call together
with the states in which the framer stood during its run, in order: the state
in which it was entered and the state after each call of the sink. -/
def framer_emit (C fuel : Nat) (env : Nat → Nat) : List (List Nat) → Comm →
    Option (Comm × List Comm)
  | [], s => some (s, [s])
  | frame :: frames, s =>
    match send_packet C fuel env frame s with
    | none => none
    | some s1 =>
      match framer_emit C fuel env frames s1 with
      | none => none
      | some (s2, during) => some (s2, s :: during)

/-- Modelled from the spec: `packet_send_packet` of the framer (`packet.c` is
not among the sources). It encodes `data` and hands what it produced to its
output sink `send_packet`; `framer data` is the list of encoded frames that it
passes to the sink. The result is that of `framer_emit`: the state in which
the framer returns and the states in which it stood during the call. -/
def packet_send_packet (framer : List Nat → List (List Nat)) (C fuel : Nat)
    (env : Nat → Nat) (data : List Nat) (s : Comm) : Option (Comm × List Comm) :=
  framer_emit C fuel env (framer data) s

/-- The function `comm_usb_send_packet` (lines 70-74): lock, call of the
framer, unlock. The result is the state in which the function returns together
with the states in which the framer stood during its call. -/
def comm_usb_send_packet (framer : List Nat → List (List Nat)) (C fuel : Nat)
    (env : Nat → Nat) (data : List Nat) (s : Comm) : Option (Comm × List Comm) :=
  match chMtxLock s with
  | none => none
  | some s1 =>
    match packet_send_packet framer C fuel env data s1 with
    | none => none
    | some (s2, during) => some (chMtxUnlock s2, during)

/-- Operations of the producer and of the consumer of one buffer, as the steps
of a schedule. -/
inductive Op where
  | push (b : Nat)
  | pop
  deriving DecidableEq

/-- A buffer together with the bytes that were pushed into it and popped from
it so far. -/
structure Run where
  ring : Ring
  pushed : List Nat
  popped : List Nat

/-- One step of a schedule on a buffer, whole operations being atomic: a push
is taken only when `occupancy < C - 1`, a pop only when
`read_pos != write_pos`; a step that is not enabled is not taken. -/
def ring_step (C : Nat) (t : Run) : Op → Run
  | Op.push b =>
    if occupancy C t.ring < C - 1 then
      { ring := push_byte C t.ring b, pushed := t.pushed ++ [b], popped := t.popped }
    else t
  | Op.pop =>
    if t.ring.read_pos ≠ t.ring.write_pos then
      let p := pop_byte C t.ring
      { ring := p.2, pushed := t.pushed, popped := t.popped ++ [p.1] }
    else t

/-- The FIFO queue of the specification, with the same record of pushed and
popped bytes: it holds at most `C - 1` bytes. -/
structure Fifo where
  queue : List Nat
  pushed : List Nat
  popped : List Nat

/-- One step of a schedule on the FIFO queue of the specification. -/
def fifo_step (C : Nat) (q : Fifo) : Op → Fifo
  | Op.push b =>
    if q.queue.length < C - 1 then
      { queue := q.queue ++ [b], pushed := q.pushed ++ [b], popped := q.popped }
    else q
  | Op.pop =>
    match q.queue with
    | [] => q
    | b :: rest => { queue := rest, pushed := q.pushed, popped := q.popped ++ [b] }

/-- One step of a schedule on the inbound buffer as the threads perform it: a
push is an iteration of the reader that received the byte (no test of the
space), a pop is an iteration of the processor's loop. -/
def rx_step (C : Nat) (s : Comm) : Op → Comm
  | Op.push b => serial_read_thread_iter C [b] s
  | Op.pop => serial_process_thread_iter C s

/-- Number of pushes of a schedule. -/
def pushes : List Op → Nat
  | [] => 0
  | Op.push _ :: ops => pushes ops + 1
  | Op.pop :: ops => pushes ops

/-- A consumer that does nothing during the sleeps. -/
def idle : Nat → Nat := fun _ => 0

/-- The initial state with the outbound cursors set to `wp` and `rp`. -/
def tx_at (wp rp : Nat) : Comm :=
  { comm_init with tx := { buffer := fun _ => 0, read_pos := rp, write_pos := wp } }

/-- The initial state with the four cursors set to `p`: both buffers are empty
and start at position `p`. -/
def cursors_at (p : Nat) : Comm :=
  { comm_init with
    rx := { buffer := fun _ => 0, read_pos := p, write_pos := p }
    tx := { buffer := fun _ => 0, read_pos := p, write_pos := p } }

/-- The cursors of a buffer are both below `C`. -/
def in_range (C : Nat) (r : Ring) : Prop :=
  r.read_pos < C ∧ r.write_pos < C

/-- What the writer thread and the sleeps leave alone: `s1` differs from `s`
at most in the outbound read cursor, the bytes put on the link and the count of
sleeps. -/
def writer_only (s s1 : Comm) : Prop :=
  s1.tx.write_pos = s.tx.write_pos ∧ s1.tx.buffer = s.tx.buffer ∧ s1.rx = s.rx ∧
    s1.send_mutex = s.send_mutex ∧ s1.write_signals = s.write_signals ∧
    s1.process_signals = s.process_signals ∧ s1.framer_rx = s.framer_rx

/-- What a test observes of the outbound side: read cursor, write cursor,
sleeps counted, signals sent to the writer, and the spec's occupancy. -/
def tx_view (C : Nat) (s : Comm) : Nat × Nat × Nat × Nat × Nat :=
  (s.tx.read_pos, s.tx.write_pos, s.sleeps, s.write_signals, occupancy C s.tx)

/-- A consumer that pops `n` bytes during the first sleep and nothing later. -/
def pops_once (n : Nat) : Nat → Nat := fun k => if k = 0 then n else 0

/-- The body of the reader's `for(;;)` loop (lines 87-102) with the local
variable `had_data` explicit: `had_data` is its value when the iteration starts,
`data` is what `chSequentialStreamRead` returned, and the result carries the
value of `had_data` when the iteration ends. -/
def serial_read_thread_body (C : Nat) (data : List Nat) (had_data : Bool) (s : Comm) :
    Bool × Comm :=
  let p := data.foldl
    (fun (st : Bool × Comm) b => (true, { st.2 with rx := push_byte C st.2.rx b }))
    (had_data, s)
  if p.1 then (false, { p.2 with process_signals := p.2.process_signals + 1 })
  else (p.1, p.2)

/-- State after the first `k` sleeps of a call of `send_packet` that was
entered in state `s`. -/
def after_sleeps (C : Nat) (env : Nat → Nat) (k : Nat) (s : Comm) : Comm :=
  (chThdSleepMilliseconds C env)^[k] s

/-- The value of `remaining` at the test of the loop condition that follows
`k` sleeps: the first computation for `k = 0`, the recomputation after the
`k`-th sleep otherwise. -/
def remaining_at (C : Nat) (env : Nat → Nat) (s : Comm) : Nat → Nat
  | 0 => remaining_first C s.tx
  | k + 1 => remaining_retry C (after_sleeps C env (k + 1) s).tx

/-- A consumer that pops `n` bytes during the sleep that starts when `k0`
sleeps have been counted, and nothing otherwise. -/
def pops_at (k0 n : Nat) : Nat → Nat := fun k => if k = k0 then n else 0

/-- One buffer in the interleaving in which every store to a cursor is a step
of its own. `producer_mid` holds between the store of `write_pos + 1`
(line 90, line 173) and the test that wraps it (lines 92-94, 175-177);
`consumer_mid` holds between the store of `read_pos + 1` (line 117, line 138)
and the test that wraps it (lines 119-121, 140-142). -/
structure Fine where
  ring : Ring
  producer_mid : Bool
  consumer_mid : Bool
  pushed : List Nat
  popped : List Nat

/-- Who makes the next step of an interleaving; `b` is the byte that the
producer stores if its next step is the store of a byte. -/
inductive Move where
  | producer (b : Nat)
  | consumer
  deriving DecidableEq

/-- One step of the interleaving. The producer alternates between
`buf[write_pos++] = b` and `if (write_pos == SIZE) write_pos = 0`; the consumer
alternates between the loop test with `buf[read_pos++]` and
`if (read_pos == SIZE) read_pos = 0`. -/
def fine_step (C : Nat) (t : Fine) : Move → Fine
  | Move.producer b =>
    if t.producer_mid then
      { t with
        ring := { buffer := t.ring.buffer
                  read_pos := t.ring.read_pos
                  write_pos := if t.ring.write_pos = C then 0 else t.ring.write_pos }
        producer_mid := false }
    else
      { t with
        ring := { buffer := Function.update t.ring.buffer t.ring.write_pos b
                  read_pos := t.ring.read_pos
                  write_pos := t.ring.write_pos + 1 }
        producer_mid := true
        pushed := t.pushed ++ [b] }
  | Move.consumer =>
    if t.consumer_mid then
      { t with
        ring := { buffer := t.ring.buffer
                  read_pos := if t.ring.read_pos = C then 0 else t.ring.read_pos
                  write_pos := t.ring.write_pos }
        consumer_mid := false }
    else if t.ring.read_pos ≠ t.ring.write_pos then
      { t with
        ring := { buffer := t.ring.buffer
                  read_pos := t.ring.read_pos + 1
                  write_pos := t.ring.write_pos }
        consumer_mid := true
        popped := t.popped ++ [t.ring.buffer t.ring.read_pos] }
    else t

/-- An empty buffer with both cursors at `p`, both threads between two
operations, nothing pushed or popped yet. -/
def fine_at (p : Nat) : Fine :=
  { ring := { buffer := fun _ => 0, read_pos := p, write_pos := p }
    producer_mid := false
    consumer_mid := false
    pushed := []
    popped := [] }

/-! ## Arithmetic of the wrapped index -/

theorem wrap_index (C a i : Nat) (ha : a < C) (hi : i ≤ C) :
    (a + i) % C = if a + i < C then a + i else a + i - C := by
  split
  · next h => exact Nat.mod_eq_of_lt h
  · next h =>
    rw [Nat.mod_eq_sub_mod (by omega)]
    exact Nat.mod_eq_of_lt (by omega)

/-! ## One push, one pop -/

@[simp]
theorem push_byte_read_pos (C : Nat) (r : Ring) (b : Nat) :
    (push_byte C r b).read_pos = r.read_pos := rfl

@[simp]
theorem pop_byte_write_pos (C : Nat) (r : Ring) :
    (pop_byte C r).2.write_pos = r.write_pos := rfl

@[simp]
theorem pop_byte_buffer (C : Nat) (r : Ring) :
    (pop_byte C r).2.buffer = r.buffer := rfl

theorem push_byte_write_pos (C : Nat) (r : Ring) (b : Nat) (hw : r.write_pos < C) :
    (push_byte C r b).write_pos = (r.write_pos + 1) % C := by
  simp only [push_byte]
  split
  · next h => rw [h, Nat.mod_self]
  · next h => exact (Nat.mod_eq_of_lt (by omega)).symm

theorem pop_byte_read_pos (C : Nat) (r : Ring) (hr : r.read_pos < C) :
    (pop_byte C r).2.read_pos = (r.read_pos + 1) % C := by
  simp only [pop_byte]
  split
  · next h => rw [h, Nat.mod_self]
  · next h => exact (Nat.mod_eq_of_lt (by omega)).symm

theorem push_byte_in_range (C : Nat) (r : Ring) (b : Nat) (h : in_range C r) :
    in_range C (push_byte C r b) := by
  obtain ⟨hr, hw⟩ := h
  refine ⟨hr, ?_⟩
  simp only [push_byte]
  split <;> omega

theorem pop_byte_in_range (C : Nat) (r : Ring) (h : in_range C r) :
    in_range C (pop_byte C r).2 := by
  obtain ⟨hr, hw⟩ := h
  refine ⟨?_, hw⟩
  simp only [pop_byte]
  split <;> omega

theorem occupancy_lt (C : Nat) (r : Ring) (h : in_range C r) : occupancy C r < C := by
  obtain ⟨hr, hw⟩ := h
  simp only [occupancy]
  split <;> omega

theorem occupancy_eq_zero_iff (C : Nat) (r : Ring) (h : in_range C r) :
    occupancy C r = 0 ↔ r.read_pos = r.write_pos := by
  obtain ⟨hr, hw⟩ := h
  simp only [occupancy]
  split <;> omega

theorem occupancy_push (C : Nat) (r : Ring) (b : Nat) (h : in_range C r)
    (hfree : occupancy C r < C - 1) :
    occupancy C (push_byte C r b) = occupancy C r + 1 := by
  obtain ⟨hr, hw⟩ := h
  simp only [occupancy, push_byte] at *
  split at hfree <;> split <;> split <;> omega

theorem occupancy_pop (C : Nat) (r : Ring) (h : in_range C r)
    (hne : r.read_pos ≠ r.write_pos) :
    occupancy C (pop_byte C r).2 + 1 = occupancy C r := by
  obtain ⟨hr, hw⟩ := h
  simp only [occupancy, pop_byte] at *
  split <;> split <;> split <;> omega

theorem unread_length (C : Nat) (r : Ring) : (unread C r).length = occupancy C r := by
  simp [unread]

theorem unread_push (C : Nat) (r : Ring) (b : Nat) (h : in_range C r)
    (hfree : occupancy C r < C - 1) :
    unread C (push_byte C r b) = unread C r ++ [b] := by
  have hocc := occupancy_push C r b h hfree
  obtain ⟨hr, hw⟩ := h
  simp only [unread, hocc, List.range_succ, List.map_append, List.map_cons, List.map_nil]
  congr 1
  · apply List.map_congr_left
    intro i hi
    have hi2 : i < occupancy C r := List.mem_range.mp hi
    have hne : (r.read_pos + i) % C ≠ r.write_pos := by
      rw [wrap_index C _ _ hr (by omega)]
      simp only [occupancy] at hi2 hfree
      split at hi2 <;> split <;> omega
    simp [push_byte, Function.update_noteq hne]
  · have heq : (r.read_pos + occupancy C r) % C = r.write_pos := by
      rw [wrap_index C _ _ hr (by omega)]
      simp only [occupancy] at hfree ⊢
      split <;> split <;> omega
    simp [push_byte, heq]

theorem unread_pop (C : Nat) (r : Ring) (h : in_range C r)
    (hne : r.read_pos ≠ r.write_pos) :
    unread C r = (pop_byte C r).1 :: unread C (pop_byte C r).2 := by
  have hocc := occupancy_pop C r h hne
  obtain ⟨hr, hw⟩ := h
  simp only [unread, ← hocc, List.range_succ_eq_map, List.map_cons, List.map_map]
  congr 1
  · simp [pop_byte, Nat.mod_eq_of_lt hr]
  · apply List.map_congr_left
    intro i _
    simp only [Function.comp, pop_byte]
    congr 1
    split
    · next h1 =>
      have : r.read_pos + (i + 1) = C + i := by omega
      rw [this, Nat.add_mod_left, Nat.zero_add]
    · next h1 => congr 1; omega

/-! ## Pushing a list of bytes -/

@[simp]
theorem push_all_read_pos (C : Nat) (bs : List Nat) (r : Ring) :
    (bs.foldl (push_byte C) r).read_pos = r.read_pos := by
  induction bs generalizing r with
  | nil => rfl
  | cons b bs ih => simp [List.foldl_cons, ih]

theorem push_all_in_range (C : Nat) (bs : List Nat) (r : Ring) (h : in_range C r) :
    in_range C (bs.foldl (push_byte C) r) := by
  induction bs generalizing r with
  | nil => exact h
  | cons b bs ih => exact ih _ (push_byte_in_range C r b h)

theorem push_all_write_pos (C : Nat) (bs : List Nat) (r : Ring) (hw : r.write_pos < C) :
    (bs.foldl (push_byte C) r).write_pos = (r.write_pos + bs.length) % C := by
  induction bs generalizing r with
  | nil => exact (Nat.mod_eq_of_lt hw).symm
  | cons b bs ih =>
    have h1 := push_byte_write_pos C r b hw
    have h2 : (push_byte C r b).write_pos < C := by
      rw [h1]; exact Nat.mod_lt _ (by omega)
    rw [List.foldl_cons, ih _ h2, h1, List.length_cons, Nat.mod_add_mod]
    congr 1; omega

theorem push_all_unread (C : Nat) (bs : List Nat) (r : Ring) (h : in_range C r)
    (hfit : occupancy C r + bs.length ≤ C - 1) :
    unread C (bs.foldl (push_byte C) r) = unread C r ++ bs ∧
      occupancy C (bs.foldl (push_byte C) r) = occupancy C r + bs.length := by
  induction bs generalizing r with
  | nil => simp
  | cons b bs ih =>
    simp only [List.length_cons] at hfit
    have hfree : occupancy C r < C - 1 := by omega
    have ho := occupancy_push C r b h hfree
    have hu := unread_push C r b h hfree
    obtain ⟨h1, h2⟩ := ih (push_byte C r b) (push_byte_in_range C r b h) (by omega)
    refine ⟨?_, ?_⟩
    · rw [List.foldl_cons, h1, hu]; simp
    · rw [List.foldl_cons, h2, ho, List.length_cons]; omega

/-! ## The drain loops -/

theorem write_drain_spec (C : Nat) (n : Nat) (s : Comm) (fuel : Nat)
    (h : in_range C s.tx) (hn : occupancy C s.tx = n) (hfuel : n < fuel) :
    serial_write_thread_drain C fuel s =
      some { s with
        tx := { buffer := s.tx.buffer, read_pos := s.tx.write_pos, write_pos := s.tx.write_pos }
        link_tx := s.link_tx ++ unread C s.tx } := by
  induction n generalizing s fuel with
  | zero =>
    have heq := (occupancy_eq_zero_iff C s.tx h).mp hn
    obtain ⟨fuel, rfl⟩ : ∃ k, fuel = k + 1 := ⟨fuel - 1, by omega⟩
    simp only [serial_write_thread_drain, heq, ne_eq, not_true_eq_false, if_false]
    have : unread C s.tx = [] := by
      apply List.eq_nil_of_length_eq_zero; rw [unread_length, hn]
    rw [this, List.append_nil]
    cases s with
    | mk rx tx m ps ws sl l f =>
      cases tx with
      | mk buf rp wp => simp at heq; subst heq; rfl
  | succ n ih =>
    have hne : s.tx.read_pos ≠ s.tx.write_pos := by
      intro heq
      have := (occupancy_eq_zero_iff C s.tx h).mpr heq
      omega
    obtain ⟨fuel, rfl⟩ : ∃ k, fuel = k + 1 := ⟨fuel - 1, by omega⟩
    have hocc := occupancy_pop C s.tx h hne
    have hun := unread_pop C s.tx h hne
    simp only [serial_write_thread_drain, ne_eq, hne, not_false_eq_true, if_true]
    rw [ih (serial_write_thread_iter C s) fuel]
    · simp [serial_write_thread_iter, hne, hun]
    · simpa [serial_write_thread_iter, hne] using pop_byte_in_range C s.tx h
    · simp only [serial_write_thread_iter, ne_eq, hne, not_false_eq_true, if_true]; omega
    · omega

theorem process_drain_spec (C : Nat) (n : Nat) (s : Comm) (fuel : Nat)
    (h : in_range C s.rx) (hn : occupancy C s.rx = n) (hfuel : n < fuel) :
    serial_process_thread_drain C fuel s =
      some { s with
        rx := { buffer := s.rx.buffer, read_pos := s.rx.write_pos, write_pos := s.rx.write_pos }
        framer_rx := s.framer_rx ++ unread C s.rx } := by
  induction n generalizing s fuel with
  | zero =>
    have heq := (occupancy_eq_zero_iff C s.rx h).mp hn
    obtain ⟨fuel, rfl⟩ : ∃ k, fuel = k + 1 := ⟨fuel - 1, by omega⟩
    simp only [serial_process_thread_drain, heq, ne_eq, not_true_eq_false, if_false]
    have : unread C s.rx = [] := by
      apply List.eq_nil_of_length_eq_zero; rw [unread_length, hn]
    rw [this, List.append_nil]
    cases s with
    | mk rx tx m ps ws sl l f =>
      cases rx with
      | mk buf rp wp => simp at heq; subst heq; rfl
  | succ n ih =>
    have hne : s.rx.read_pos ≠ s.rx.write_pos := by
      intro heq
      have := (occupancy_eq_zero_iff C s.rx h).mpr heq
      omega
    obtain ⟨fuel, rfl⟩ : ∃ k, fuel = k + 1 := ⟨fuel - 1, by omega⟩
    have hocc := occupancy_pop C s.rx h hne
    have hun := unread_pop C s.rx h hne
    simp only [serial_process_thread_drain, ne_eq, hne, not_false_eq_true, if_true]
    rw [ih (serial_process_thread_iter C s) fuel]
    · simp [serial_process_thread_iter, hne, hun]
    · simpa [serial_process_thread_iter, hne] using pop_byte_in_range C s.rx h
    · simp only [serial_process_thread_iter, ne_eq, hne, not_false_eq_true, if_true]; omega
    · omega

/-! ## The retry loop of `send_packet` -/

theorem writer_only_refl (s : Comm) : writer_only s s :=
  ⟨rfl, rfl, rfl, rfl, rfl, rfl, rfl⟩

theorem writer_only_trans {s s1 s2 : Comm} (h1 : writer_only s s1) (h2 : writer_only s1 s2) :
    writer_only s s2 := by
  obtain ⟨a1, a2, a3, a4, a5, a6, a7⟩ := h1
  obtain ⟨b1, b2, b3, b4, b5, b6, b7⟩ := h2
  exact ⟨b1.trans a1, b2.trans a2, b3.trans a3, b4.trans a4, b5.trans a5, b6.trans a6,
    b7.trans a7⟩

theorem write_iter_writer_only (C : Nat) (s : Comm) :
    writer_only s (serial_write_thread_iter C s) ∧
      (serial_write_thread_iter C s).sleeps = s.sleeps := by
  unfold serial_write_thread_iter
  split
  · exact ⟨⟨rfl, rfl, rfl, rfl, rfl, rfl, rfl⟩, rfl⟩
  · exact ⟨writer_only_refl s, rfl⟩

theorem write_iters_writer_only (C n : Nat) (s : Comm) :
    writer_only s ((serial_write_thread_iter C)^[n] s) ∧
      ((serial_write_thread_iter C)^[n] s).sleeps = s.sleeps := by
  induction n generalizing s with
  | zero => exact ⟨writer_only_refl s, rfl⟩
  | succ n ih =>
    rw [Function.iterate_succ_apply]
    obtain ⟨h1, h2⟩ := write_iter_writer_only C s
    obtain ⟨h3, h4⟩ := ih (serial_write_thread_iter C s)
    exact ⟨writer_only_trans h1 h3, h4.trans h2⟩

theorem sleep_writer_only (C : Nat) (env : Nat → Nat) (s : Comm) :
    writer_only s (chThdSleepMilliseconds C env s) ∧
      (chThdSleepMilliseconds C env s).sleeps = s.sleeps + 1 := by
  obtain ⟨h1, h2⟩ := write_iters_writer_only C (env s.sleeps) s
  refine ⟨?_, ?_⟩
  · exact h1
  · simp only [chThdSleepMilliseconds]; rw [h2]

/-- The retry loop returns with enough fuel, after at most `timeout` sleeps, and
after exactly `timeout` sleeps when it returns from inside the loop. It leaves
alone what the writer leaves alone. -/
theorem send_packet_wait_total (C len : Nat) (env : Nat → Nat) (fuel timeout remaining : Nat)
    (s : Comm) (h1 : 1 ≤ timeout) (h2 : timeout ≤ fuel) :
    ∃ b s1, send_packet_wait C len env fuel timeout remaining s = some (b, s1) ∧
      writer_only s s1 ∧ s1.sleeps ≤ s.sleeps + timeout ∧
      (b = false → s1.sleeps = s.sleeps + timeout) := by
  induction fuel generalizing timeout remaining s with
  | zero => omega
  | succ fuel ih =>
    unfold send_packet_wait
    obtain ⟨hw, hs⟩ := sleep_writer_only C env s
    by_cases hlen : len > remaining
    · simp only [hlen, if_true]
      by_cases ht : timeout - 1 = 0
      · simp only [ht, if_true]
        exact ⟨false, _, rfl, hw, by omega, fun _ => by omega⟩
      · simp only [ht, if_false]
        obtain ⟨b, s1, e, w, le, ex⟩ :=
          ih (timeout - 1) (remaining_retry C (chThdSleepMilliseconds C env s).tx)
            (chThdSleepMilliseconds C env s) (by omega) (by omega)
        exact ⟨b, s1, e, writer_only_trans hw w, by omega, fun hb => by have := ex hb; omega⟩
    · simp only [hlen, if_false]
      exact ⟨true, s, rfl, writer_only_refl s, by omega, fun hb => by simp at hb⟩

/-- Whatever the fuel, a result of the retry loop differs from the entry state
only in what the writer and the sleeps change. -/
theorem send_packet_wait_frame (C len : Nat) (env : Nat → Nat) (fuel timeout remaining : Nat)
    (s : Comm) (b : Bool) (s1 : Comm)
    (h : send_packet_wait C len env fuel timeout remaining s = some (b, s1)) :
    writer_only s s1 ∧ s.sleeps ≤ s1.sleeps := by
  induction fuel generalizing timeout remaining s with
  | zero => simp [send_packet_wait] at h
  | succ fuel ih =>
    unfold send_packet_wait at h
    obtain ⟨hw, hs⟩ := sleep_writer_only C env s
    by_cases hlen : len > remaining
    · simp only [hlen, if_true] at h
      by_cases ht : timeout - 1 = 0
      · simp only [ht, if_true, Option.some.injEq, Prod.mk.injEq] at h
        obtain ⟨_, rfl⟩ := h
        exact ⟨hw, by omega⟩
      · simp only [ht, if_false] at h
        obtain ⟨w, le⟩ := ih _ _ _ h
        exact ⟨writer_only_trans hw w, by omega⟩
    · simp only [hlen, if_false, Option.some.injEq, Prod.mk.injEq] at h
      obtain ⟨_, rfl⟩ := h
      exact ⟨writer_only_refl s, le_refl _⟩

theorem send_packet_wait_now (C len : Nat) (env : Nat → Nat) (fuel timeout remaining : Nat)
    (s : Comm) (h : len ≤ remaining) :
    send_packet_wait C len env (fuel + 1) timeout remaining s = some (true, s) := by
  unfold send_packet_wait
  simp [Nat.not_lt.mpr h]

/-- With fuel 10 or more `send_packet` returns, after at most 10 sleeps, and the
mutex, the inbound side and the framer's input are as before. -/
theorem send_packet_total (C fuel : Nat) (env : Nat → Nat) (buffer : List Nat) (s : Comm)
    (hfuel : 10 ≤ fuel) :
    ∃ s1, send_packet C fuel env buffer s = some s1 ∧ s1.sleeps ≤ s.sleeps + 10 ∧
      s1.send_mutex = s.send_mutex ∧ s1.rx = s.rx := by
  obtain ⟨b, s1, e, w, le, _⟩ :=
    send_packet_wait_total C buffer.length env fuel 10 (remaining_first C s.tx) s
      (by omega) hfuel
  obtain ⟨_, _, w3, w4, _⟩ := w
  unfold send_packet
  simp only [e]
  cases b with
  | false => exact ⟨s1, rfl, le, w4, w3⟩
  | true => exact ⟨_, rfl, le, w4, w3⟩

theorem remaining_first_empty (C : Nat) (r : Ring) (hC : C < 4294967296) (hC0 : 0 < C)
    (h : r.read_pos = r.write_pos) : remaining_first C r = C - 1 := by
  simp only [remaining_first, h, gt_iff_lt, lt_self_iff_false, if_false]
  omega

theorem read_iters_rx (C : Nat) (bs : List Nat) (s : Comm) :
    (bs.foldl (fun st b => serial_read_thread_iter C [b] st) s).rx =
        bs.foldl (push_byte C) s.rx ∧
      (bs.foldl (fun st b => serial_read_thread_iter C [b] st) s).framer_rx = s.framer_rx := by
  induction bs generalizing s with
  | nil => exact ⟨rfl, rfl⟩
  | cons b bs ih =>
    obtain ⟨h1, h2⟩ := ih (serial_read_thread_iter C [b] s)
    rw [List.foldl_cons, h1, h2]
    exact ⟨rfl, rfl⟩

/-- The outcome of `send_packet` when its retry loop is left by the loop
condition in state `s1`: the payload is written from the write cursor of `s1`
on and the writer is signalled. -/
theorem send_packet_view_of_wait (C fuel : Nat) (env : Nat → Nat) (buffer : List Nat)
    (s s1 : Comm) (len : Nat) (hlen : buffer.length = len)
    (h : send_packet_wait C len env fuel 10 (remaining_first C s.tx) s = some (true, s1))
    (hw : s1.tx.write_pos < C) :
    (send_packet C fuel env buffer s).map (tx_view C) =
      some (s1.tx.read_pos, (s1.tx.write_pos + len) % C, s1.sleeps, s1.write_signals + 1,
        occupancy C ⟨s1.tx.buffer, s1.tx.read_pos, (s1.tx.write_pos + len) % C⟩) := by
  subst hlen
  unfold send_packet
  simp only [h, Option.map_some', tx_view, push_all_read_pos, push_all_write_pos C buffer s1.tx hw,
    occupancy]

/-! ## Schedules on one buffer and the FIFO queue -/

theorem ring_step_sim (C : Nat) (t : Run) (q : Fifo) (op : Op)
    (hr : in_range C t.ring) (h1 : t.pushed = q.pushed) (h2 : t.popped = q.popped)
    (h3 : unread C t.ring = q.queue) :
    in_range C (ring_step C t op).ring ∧ (ring_step C t op).pushed = (fifo_step C q op).pushed ∧
      (ring_step C t op).popped = (fifo_step C q op).popped ∧
      unread C (ring_step C t op).ring = (fifo_step C q op).queue := by
  have hlen : q.queue.length = occupancy C t.ring := by rw [← h3, unread_length]
  cases op with
  | push b =>
    simp only [ring_step, fifo_step, hlen]
    split
    · next hfree =>
      exact ⟨push_byte_in_range C _ b hr, by rw [h1], h2, by rw [unread_push C _ b hr hfree, h3]⟩
    · exact ⟨hr, h1, h2, h3⟩
  | pop =>
    simp only [ring_step, fifo_step]
    split
    · next hne =>
      have hu := unread_pop C t.ring hr hne
      rw [h3] at hu
      rw [hu]
      exact ⟨pop_byte_in_range C _ hr, h1, by rw [h2], rfl⟩
    · next heq =>
      have heq2 : t.ring.read_pos = t.ring.write_pos := by
        by_contra hne; exact heq hne
      have h0 := (occupancy_eq_zero_iff C t.ring hr).mpr heq2
      have : q.queue = [] := List.eq_nil_of_length_eq_zero (by omega)
      rw [this]
      exact ⟨hr, h1, h2, by rw [h3, this]⟩

theorem fifo_step_inv (C : Nat) (q : Fifo) (op : Op) (h : q.popped ++ q.queue = q.pushed)
    (hl : q.queue.length ≤ C - 1) :
    (fifo_step C q op).popped ++ (fifo_step C q op).queue = (fifo_step C q op).pushed ∧
      (fifo_step C q op).queue.length ≤ C - 1 := by
  cases op with
  | push b =>
    simp only [fifo_step]
    split
    · refine ⟨by rw [← h, List.append_assoc], ?_⟩
      simp only [List.length_append, List.length_singleton]; omega
    · exact ⟨h, hl⟩
  | pop =>
    simp only [fifo_step]
    split
    · exact ⟨h, hl⟩
    · next b rest hq =>
      rw [hq] at h hl
      refine ⟨by rw [← h]; simp, ?_⟩
      simp only [List.length_cons] at hl
      show rest.length ≤ C - 1
      omega

theorem ring_run_sim (C : Nat) (ops : List Op) (t : Run) (q : Fifo)
    (hr : in_range C t.ring) (h1 : t.pushed = q.pushed) (h2 : t.popped = q.popped)
    (h3 : unread C t.ring = q.queue) (h4 : q.popped ++ q.queue = q.pushed)
    (h5 : q.queue.length ≤ C - 1) :
    in_range C (ops.foldl (ring_step C) t).ring ∧
      (ops.foldl (ring_step C) t).pushed = (ops.foldl (fifo_step C) q).pushed ∧
      (ops.foldl (ring_step C) t).popped = (ops.foldl (fifo_step C) q).popped ∧
      unread C (ops.foldl (ring_step C) t).ring = (ops.foldl (fifo_step C) q).queue ∧
      (ops.foldl (fifo_step C) q).popped ++ (ops.foldl (fifo_step C) q).queue =
        (ops.foldl (fifo_step C) q).pushed ∧
      (ops.foldl (fifo_step C) q).queue.length ≤ C - 1 := by
  induction ops generalizing t q with
  | nil => exact ⟨hr, h1, h2, h3, h4, h5⟩
  | cons op ops ih =>
    obtain ⟨a, b, c, d⟩ := ring_step_sim C t q op hr h1 h2 h3
    obtain ⟨e, f⟩ := fifo_step_inv C q op h4 h5
    exact ih _ _ a b c d e f

/-! ## Schedules on the inbound buffer -/

theorem pushes_replicate (n b : Nat) : pushes (List.replicate n (Op.push b)) = n := by
  induction n with
  | zero => rfl
  | succ n ih => simp [List.replicate_succ, pushes, ih]

theorem rx_step_inv (C : Nat) (hC : 0 < C) (s : Comm) (op : Op) (n : Nat)
    (hw : s.rx.write_pos = n % C) (hr : s.rx.read_pos = s.framer_rx.length % C)
    (hle : s.framer_rx.length ≤ n) :
    (rx_step C s op).rx.write_pos = (n + pushes [op]) % C ∧
      (rx_step C s op).rx.read_pos = (rx_step C s op).framer_rx.length % C ∧
      (rx_step C s op).framer_rx.length ≤ n + pushes [op] := by
  cases op with
  | push b =>
    have hlt : s.rx.write_pos < C := by rw [hw]; exact Nat.mod_lt _ hC
    have h1 := push_byte_write_pos C s.rx b hlt
    simp only [rx_step, serial_read_thread_iter, List.foldl_cons, List.foldl_nil,
      List.length_singleton, gt_iff_lt, Nat.lt_one_iff, pushes]
    refine ⟨?_, ?_, ?_⟩
    · show (push_byte C s.rx b).write_pos = (n + (0 + 1)) % C
      rw [h1, hw, Nat.mod_add_mod]
    · exact hr
    · show s.framer_rx.length ≤ n + (0 + 1)
      omega
  | pop =>
    simp only [rx_step, serial_process_thread_iter, pushes, Nat.add_zero]
    split
    · next hne =>
      have hlt : s.rx.read_pos < C := by rw [hr]; exact Nat.mod_lt _ hC
      have h1 := pop_byte_read_pos C s.rx hlt
      have hne2 : s.framer_rx.length ≠ n := by
        intro heq; apply hne; rw [hr, hw, heq]
      refine ⟨hw, ?_, ?_⟩
      · show (pop_byte C s.rx).2.read_pos = (s.framer_rx ++ [(pop_byte C s.rx).1]).length % C
        rw [h1, hr, Nat.mod_add_mod, List.length_append, List.length_singleton]
      · show (s.framer_rx ++ [(pop_byte C s.rx).1]).length ≤ n
        rw [List.length_append, List.length_singleton]; omega
    · exact ⟨hw, hr, hle⟩

theorem pushes_cons (op : Op) (ops : List Op) : pushes (op :: ops) = pushes [op] + pushes ops := by
  cases op with
  | push b => simp [pushes]; omega
  | pop => simp [pushes]

theorem rx_run_inv (C : Nat) (hC : 0 < C) (ops : List Op) (s : Comm) (n : Nat)
    (hw : s.rx.write_pos = n % C) (hr : s.rx.read_pos = s.framer_rx.length % C)
    (hle : s.framer_rx.length ≤ n) :
    (ops.foldl (rx_step C) s).rx.write_pos = (n + pushes ops) % C ∧
      (ops.foldl (rx_step C) s).rx.read_pos = (ops.foldl (rx_step C) s).framer_rx.length % C ∧
      (ops.foldl (rx_step C) s).framer_rx.length ≤ n + pushes ops := by
  induction ops generalizing s n with
  | nil => exact ⟨hw, hr, hle⟩
  | cons op ops ih =>
    obtain ⟨a, b, c⟩ := rx_step_inv C hC s op n hw hr hle
    have := ih (rx_step C s op) (n + pushes [op]) a b c
    rw [pushes_cons, ← Nat.add_assoc]
    exact this

theorem rx_pushes_only (C n b : Nat) (s : Comm) :
    ((List.replicate n (Op.push b)).foldl (rx_step C) s).rx.read_pos = s.rx.read_pos ∧
      ((List.replicate n (Op.push b)).foldl (rx_step C) s).framer_rx = s.framer_rx := by
  induction n generalizing s with
  | zero => exact ⟨rfl, rfl⟩
  | succ n ih =>
    obtain ⟨h1, h2⟩ := ih (rx_step C s (Op.push b))
    rw [List.replicate_succ, List.foldl_cons, h1, h2]
    exact ⟨rfl, rfl⟩

theorem rx_overrun_state (C n b : Nat) (hC : 0 < C) :
    ((List.replicate n (Op.push b)).foldl (rx_step C) comm_init).rx.read_pos = 0 ∧
      ((List.replicate n (Op.push b)).foldl (rx_step C) comm_init).rx.write_pos = n % C ∧
      ((List.replicate n (Op.push b)).foldl (rx_step C) comm_init).framer_rx.length = 0 ∧
      pushes (List.replicate n (Op.push b)) = n := by
  obtain ⟨a, _, _⟩ := rx_run_inv C hC (List.replicate n (Op.push b)) comm_init 0
    (Nat.zero_mod C).symm (Nat.zero_mod C).symm (Nat.le_refl _)
  obtain ⟨h1, h2⟩ := rx_pushes_only C n b comm_init
  rw [pushes_replicate, Nat.zero_add] at a
  exact ⟨h1, a, by rw [h2]; rfl, pushes_replicate n b⟩

/-! ## The send gate -/

/-- With fuel for the retry loops the framer returns. The states in which it
stood start with the entry state, end with the state in which it returns, are
linked by the calls of `send_packet` on the frames in order, and all have the
mutex as the entry state has it. -/
theorem framer_emit_total (C fuel : Nat) (env : Nat → Nat) (frames : List (List Nat))
    (s : Comm) (hfuel : 10 ≤ fuel) :
    ∃ s2 during, framer_emit C fuel env frames s = some (s2, during) ∧
      during.length = frames.length + 1 ∧
      during.head? = some s ∧
      during.getLast? = some s2 ∧
      (∀ i frame, frames[i]? = some frame →
        ∃ t t1, during[i]? = some t ∧ during[i + 1]? = some t1 ∧
          send_packet C fuel env frame t = some t1) ∧
      (∀ t, t ∈ during → t.send_mutex = s.send_mutex) := by
  induction frames generalizing s with
  | nil =>
    refine ⟨s, [s], rfl, rfl, rfl, rfl, ?_, ?_⟩
    · intro i frame h; simp at h
    · intro t ht
      rw [List.mem_singleton] at ht
      rw [ht]
  | cons frame frames ih =>
    obtain ⟨s1, e1, _, m1, _⟩ := send_packet_total C fuel env frame s hfuel
    obtain ⟨s2, during, e2, hlen, hhead, hlast, hlink, hmutex⟩ := ih s1
    cases during with
    | nil => simp at hlen
    | cons d ds =>
      simp only [List.head?_cons, Option.some.injEq] at hhead
      subst hhead
      refine ⟨s2, s :: d :: ds, ?_, ?_, rfl, ?_, ?_, ?_⟩
      · simp only [framer_emit, e1, e2]
      · simp only [List.length_cons] at hlen ⊢
        omega
      · rw [List.getLast?_cons_cons]; exact hlast
      · intro i fr h
        cases i with
        | zero =>
          simp only [List.getElem?_cons_zero, Option.some.injEq] at h
          subst h
          exact ⟨s, d, rfl, by simp, e1⟩
        | succ i =>
          rw [List.getElem?_cons_succ] at h
          obtain ⟨t, t1, h1, h2, h3⟩ := hlink i fr h
          exact ⟨t, t1, by rw [List.getElem?_cons_succ]; exact h1,
            by rw [List.getElem?_cons_succ]; exact h2, h3⟩
      · intro t ht
        rw [List.mem_cons] at ht
        cases ht with
        | inl h => rw [h]
        | inr h => rw [hmutex t h, m1]

/-! ## The number of iterations of the drain loops -/

theorem process_drain_short (C : Nat) (fuel : Nat) (s : Comm) (h : in_range C s.rx)
    (hfuel : fuel ≤ occupancy C s.rx) : serial_process_thread_drain C fuel s = none := by
  induction fuel generalizing s with
  | zero => rfl
  | succ fuel ih =>
    have hne : s.rx.read_pos ≠ s.rx.write_pos := by
      intro heq
      have := (occupancy_eq_zero_iff C s.rx h).mpr heq
      omega
    have hocc := occupancy_pop C s.rx h hne
    simp only [serial_process_thread_drain, ne_eq, hne, not_false_eq_true, if_true]
    apply ih
    · simpa [serial_process_thread_iter, hne] using pop_byte_in_range C s.rx h
    · simp only [serial_process_thread_iter, ne_eq, hne, not_false_eq_true, if_true]; omega

theorem write_drain_short (C : Nat) (fuel : Nat) (s : Comm) (h : in_range C s.tx)
    (hfuel : fuel ≤ occupancy C s.tx) : serial_write_thread_drain C fuel s = none := by
  induction fuel generalizing s with
  | zero => rfl
  | succ fuel ih =>
    have hne : s.tx.read_pos ≠ s.tx.write_pos := by
      intro heq
      have := (occupancy_eq_zero_iff C s.tx h).mpr heq
      omega
    have hocc := occupancy_pop C s.tx h hne
    simp only [serial_write_thread_drain, ne_eq, hne, not_false_eq_true, if_true]
    apply ih
    · simpa [serial_write_thread_iter, hne] using pop_byte_in_range C s.tx h
    · simp only [serial_write_thread_iter, ne_eq, hne, not_false_eq_true, if_true]; omega

/-! ## The reader loop -/

theorem read_body_fold (C : Nat) (data : List Nat) (flag : Bool) (s : Comm) :
    data.foldl
        (fun (st : Bool × Comm) b => (true, { st.2 with rx := push_byte C st.2.rx b }))
        (flag, s) =
      (flag || decide (data.length > 0),
        data.foldl (fun st b => { st with rx := push_byte C st.rx b }) s) := by
  induction data generalizing flag s with
  | nil => simp
  | cons b bs ih => rw [List.foldl_cons, List.foldl_cons, ih]; simp

theorem read_fold_rx (C : Nat) (data : List Nat) (s : Comm) :
    data.foldl (fun st b => { st with rx := push_byte C st.rx b }) s =
      { s with rx := data.foldl (push_byte C) s.rx } := by
  induction data generalizing s with
  | nil => rfl
  | cons b bs ih => rw [List.foldl_cons, List.foldl_cons, ih]

/-! ## The tests of the retry loop, one by one -/

theorem after_sleeps_succ (C : Nat) (env : Nat → Nat) (k : Nat) (s : Comm) :
    after_sleeps C env k (chThdSleepMilliseconds C env s) = after_sleeps C env (k + 1) s := by
  simp only [after_sleeps, Function.iterate_succ_apply]

theorem after_sleeps_writer_only (C : Nat) (env : Nat → Nat) (k : Nat) (s : Comm) :
    writer_only s (after_sleeps C env k s) ∧ (after_sleeps C env k s).sleeps = s.sleeps + k := by
  induction k generalizing s with
  | zero => exact ⟨writer_only_refl s, rfl⟩
  | succ k ih =>
    obtain ⟨h1, h2⟩ := sleep_writer_only C env s
    obtain ⟨h3, h4⟩ := ih (chThdSleepMilliseconds C env s)
    rw [after_sleeps_succ] at h3 h4
    exact ⟨writer_only_trans h1 h3, by omega⟩

theorem send_packet_wait_exit (C len : Nat) (env : Nat → Nat) (fuel timeout remaining : Nat)
    (s : Comm) (k : Nat) (h1 : k < timeout) (h2 : timeout ≤ fuel)
    (hbefore : ∀ j, j < k →
      len > (if j = 0 then remaining else remaining_retry C (after_sleeps C env j s).tx))
    (hat : ¬ len > (if k = 0 then remaining else remaining_retry C (after_sleeps C env k s).tx)) :
    send_packet_wait C len env fuel timeout remaining s = some (true, after_sleeps C env k s) := by
  induction fuel generalizing timeout remaining s k with
  | zero => omega
  | succ fuel ih =>
    unfold send_packet_wait
    cases k with
    | zero =>
      simp only [if_true] at hat
      simp only [hat, if_false]
      rfl
    | succ k =>
      have h0 := hbefore 0 (by omega)
      simp only [if_true] at h0
      have ht : ¬ timeout - 1 = 0 := by omega
      simp only [h0, if_true, ht, if_false]
      rw [ih (timeout - 1) _ (chThdSleepMilliseconds C env s) k (by omega) (by omega),
        after_sleeps_succ]
      · intro j hj
        have := hbefore (j + 1) (by omega)
        simp only [Nat.add_one_ne_zero, if_false] at this
        cases j with
        | zero => simpa [after_sleeps] using this
        | succ j => simpa [after_sleeps_succ] using this
      · simp only [Nat.add_one_ne_zero, if_false] at hat
        cases k with
        | zero => simpa [after_sleeps] using hat
        | succ k => simpa [after_sleeps_succ] using hat

theorem send_packet_wait_abandon (C len : Nat) (env : Nat → Nat) (fuel timeout remaining : Nat)
    (s : Comm) (h1 : 1 ≤ timeout) (h2 : timeout ≤ fuel)
    (hall : ∀ j, j < timeout →
      len > (if j = 0 then remaining else remaining_retry C (after_sleeps C env j s).tx)) :
    send_packet_wait C len env fuel timeout remaining s =
      some (false, after_sleeps C env timeout s) := by
  induction fuel generalizing timeout remaining s with
  | zero => omega
  | succ fuel ih =>
    unfold send_packet_wait
    have h0 := hall 0 (by omega)
    simp only [if_true] at h0
    simp only [h0, if_true]
    by_cases ht : timeout - 1 = 0
    · have : timeout = 1 := by omega
      subst this
      simp [after_sleeps]
    · simp only [ht, if_false]
      rw [ih (timeout - 1) _ (chThdSleepMilliseconds C env s) (by omega) (by omega),
        after_sleeps_succ]
      · have : timeout - 1 + 1 = timeout := by omega
        rw [this]
      · intro j hj
        have := hall (j + 1) (by omega)
        simp only [Nat.add_one_ne_zero, if_false] at this
        cases j with
        | zero => simpa [after_sleeps] using this
        | succ j => simpa [after_sleeps_succ] using this

theorem remaining_at_eq (C : Nat) (env : Nat → Nat) (s : Comm) (j : Nat) :
    remaining_at C env s j =
      if j = 0 then remaining_first C s.tx else remaining_retry C (after_sleeps C env j s).tx := by
  cases j with
  | zero => rfl
  | succ j => rfl

/-! ## Cursors stay in range -/

theorem write_iter_in_range (C : Nat) (s : Comm) (h : in_range C s.tx) :
    in_range C (serial_write_thread_iter C s).tx := by
  unfold serial_write_thread_iter
  split
  · exact pop_byte_in_range C s.tx h
  · exact h

theorem process_iter_in_range (C : Nat) (s : Comm) (h : in_range C s.rx) :
    in_range C (serial_process_thread_iter C s).rx := by
  unfold serial_process_thread_iter
  split
  · exact pop_byte_in_range C s.rx h
  · exact h

theorem write_iters_in_range (C n : Nat) (s : Comm) (h : in_range C s.tx) :
    in_range C ((serial_write_thread_iter C)^[n] s).tx := by
  induction n generalizing s with
  | zero => exact h
  | succ n ih =>
    rw [Function.iterate_succ_apply]
    exact ih _ (write_iter_in_range C s h)

theorem sleep_in_range (C : Nat) (env : Nat → Nat) (s : Comm) (h : in_range C s.tx) :
    in_range C (chThdSleepMilliseconds C env s).tx :=
  write_iters_in_range C (env s.sleeps) s h

theorem send_packet_wait_in_range (C len : Nat) (env : Nat → Nat) (fuel timeout remaining : Nat)
    (s : Comm) (b : Bool) (s1 : Comm) (hr : in_range C s.tx)
    (h : send_packet_wait C len env fuel timeout remaining s = some (b, s1)) :
    in_range C s1.tx := by
  induction fuel generalizing timeout remaining s with
  | zero => simp [send_packet_wait] at h
  | succ fuel ih =>
    unfold send_packet_wait at h
    have hs := sleep_in_range C env s hr
    by_cases hlen : len > remaining
    · simp only [hlen, if_true] at h
      by_cases ht : timeout - 1 = 0
      · simp only [ht, if_true, Option.some.injEq, Prod.mk.injEq] at h
        obtain ⟨_, rfl⟩ := h
        exact hs
      · simp only [ht, if_false] at h
        exact ih _ _ _ hs h
    · simp only [hlen, if_false, Option.some.injEq, Prod.mk.injEq] at h
      obtain ⟨_, rfl⟩ := h
      exact hr

theorem push_all_buffer_outside (C : Nat) (bs : List Nat) (r : Ring) (hw : r.write_pos < C)
    (i : Nat) (hi : C ≤ i) : (bs.foldl (push_byte C) r).buffer i = r.buffer i := by
  induction bs generalizing r with
  | nil => rfl
  | cons b bs ih =>
    have h2 : (push_byte C r b).write_pos < C := by
      rw [push_byte_write_pos C r b hw]; exact Nat.mod_lt _ (by omega)
    rw [List.foldl_cons, ih _ h2]
    have hne : i ≠ r.write_pos := by omega
    simp [push_byte, Function.update_noteq hne]

/-! ## Overrun of the inbound buffer -/

theorem unread_overrun (C : Nat) (n : Nat) :
    ∀ (bytes : List Nat) (r : Ring), bytes.length = n → in_range C r →
      r.read_pos = r.write_pos →
      in_range C (bytes.foldl (push_byte C) r) ∧
        occupancy C (bytes.foldl (push_byte C) r) = bytes.length % C ∧
        unread C (bytes.foldl (push_byte C) r) =
          bytes.drop (bytes.length - bytes.length % C) := by
  induction n using Nat.strong_induction_on with
  | _ n ih =>
    intro bytes r hlen hr heq
    have hC : 0 < C := by have := hr.1; omega
    have hocc : occupancy C r = 0 := (occupancy_eq_zero_iff C r hr).mpr heq
    have hun : unread C r = [] := by
      apply List.eq_nil_of_length_eq_zero; rw [unread_length, hocc]
    by_cases hlt : bytes.length < C
    · obtain ⟨u1, u2⟩ := push_all_unread C bytes r hr (by omega)
      have hmod : bytes.length % C = bytes.length := Nat.mod_eq_of_lt hlt
      refine ⟨push_all_in_range C bytes r hr, ?_, ?_⟩
      · rw [u2, hocc, hmod, Nat.zero_add]
      · rw [u1, hun, hmod, Nat.sub_self, List.drop_zero, List.nil_append]
    · have hsplit : bytes = bytes.take C ++ bytes.drop C := (List.take_append_drop C bytes).symm
      have htake : (bytes.take C).length = C := by
        rw [List.length_take]; omega
      have hdrop : (bytes.drop C).length = bytes.length - C := List.length_drop C bytes
      have hr1 := push_all_in_range C (bytes.take C) r hr
      have hw1 := push_all_write_pos C (bytes.take C) r hr.2
      rw [htake, Nat.add_mod_right, Nat.mod_eq_of_lt hr.2] at hw1
      have heq1 : ((bytes.take C).foldl (push_byte C) r).read_pos =
          ((bytes.take C).foldl (push_byte C) r).write_pos := by
        rw [push_all_read_pos, hw1, heq]
      obtain ⟨a, b, c⟩ := ih (bytes.length - C) (by omega) (bytes.drop C)
        ((bytes.take C).foldl (push_byte C) r) hdrop hr1 heq1
      have hfold : bytes.foldl (push_byte C) r =
          (bytes.drop C).foldl (push_byte C) ((bytes.take C).foldl (push_byte C) r) := by
        rw [← List.foldl_append, List.take_append_drop]
      have hmod : (bytes.length - C) % C = bytes.length % C := by
        have h1 : bytes.length = bytes.length - C + C := by omega
        rw [h1, Nat.add_mod_right, ← h1]
      have hle : bytes.length % C ≤ bytes.length - C := by
        rw [← hmod]; exact Nat.mod_le _ _
      rw [hfold]
      refine ⟨a, ?_, ?_⟩
      · rw [b, hdrop, hmod]
      · rw [c, hdrop, hmod, List.drop_drop]
        congr 1
        omega

/-! ## The interleaving with one step for each cursor store -/

/-- The two steps of the producer, run back to back, are one `push_byte`. -/
theorem fine_push_whole (C : Nat) (t : Fine) (b b1 : Nat) (h : t.producer_mid = false) :
    (fine_step C (fine_step C t (Move.producer b)) (Move.producer b1)).ring =
      push_byte C t.ring b := by
  simp [fine_step, h, push_byte]

/-- The two steps of the consumer, run back to back on a buffer that does not
read as empty, are one `pop_byte`. -/
theorem fine_pop_whole (C : Nat) (t : Fine) (h : t.consumer_mid = false)
    (hne : t.ring.read_pos ≠ t.ring.write_pos) :
    (fine_step C (fine_step C t Move.consumer) Move.consumer).ring = (pop_byte C t.ring).2 ∧
      (fine_step C (fine_step C t Move.consumer) Move.consumer).popped =
        t.popped ++ [(pop_byte C t.ring).1] := by
  simp [fine_step, h, hne, pop_byte]

/-! ## The claims -/

/-- C1 (the code at the failing input): 6 bytes and then 10 bytes are sent into
the empty 2048-byte buffer with an idle writer. The first call writes at once.
For the second call 10 bytes fit (`10 <= C - 1 - 6`), yet the call sleeps 10
times and returns without writing: the write cursor is still 6, the writer was
signalled once in all, and 6 bytes are unread. -/
theorem send_packet_second_payload_dropped :
    (send_packet SERIAL_TX_BUFFER_SIZE 10 idle [1, 2, 3, 4, 5, 6] comm_init).map
        (tx_view SERIAL_TX_BUFFER_SIZE) = some (0, 6, 0, 1, 6) ∧
      10 ≤ SERIAL_TX_BUFFER_SIZE - 1 - 6 ∧
      ((send_packet SERIAL_TX_BUFFER_SIZE 10 idle [1, 2, 3, 4, 5, 6] comm_init).bind
        (send_packet SERIAL_TX_BUFFER_SIZE 10 idle [7, 8, 9, 10, 11, 12, 13, 14, 15, 16])).map
        (tx_view SERIAL_TX_BUFFER_SIZE) = some (0, 6, 10, 1, 6) := by
  decide

/-- C2 (the code at the failing input): the outbound buffer holds 2047 unread
bytes (`write_pos = 2047`, `read_pos = 0`), so no byte fits. `send_packet`
with 2 bytes writes at once: the second byte lands on the unread slot 0, the
write cursor passes the read cursor and the occupancy falls from 2047 to 1. -/
theorem send_packet_overwrites_unread :
    occupancy SERIAL_TX_BUFFER_SIZE (tx_at 2047 0).tx = 2047 ∧
      ¬ (2 ≤ SERIAL_TX_BUFFER_SIZE - 1 - 2047) ∧
      (send_packet SERIAL_TX_BUFFER_SIZE 10 idle [170, 187] (tx_at 2047 0)).map
        (fun s => (tx_view SERIAL_TX_BUFFER_SIZE s, s.tx.buffer 2047, s.tx.buffer 0)) =
        some ((0, 1, 0, 1, 1), 170, 187) := by
  decide

/-- C3: when `send_packet` returns from inside its retry loop (the counter has
reached zero), the write cursor, every byte of the outbound buffer and the
number of signals to the writer are as on entry: nothing of the payload was
written. -/
theorem send_packet_abandon_writes_nothing (C fuel : Nat) (env : Nat → Nat)
    (buffer : List Nat) (s s1 : Comm)
    (h : send_packet_wait C buffer.length env fuel 10 (remaining_first C s.tx) s =
      some (false, s1)) :
    send_packet C fuel env buffer s = some s1 ∧ s1.tx.write_pos = s.tx.write_pos ∧
      s1.tx.buffer = s.tx.buffer ∧ s1.write_signals = s.write_signals := by
  obtain ⟨⟨w1, w2, _, _, w5, _⟩, _⟩ := send_packet_wait_frame C _ env fuel 10 _ s false s1 h
  refine ⟨?_, w1, w2, w5⟩
  unfold send_packet
  simp only [h]

/-- Witness of C3: 6 bytes unread, a payload of 10 bytes, an idle writer: the
call returns from inside the loop after 10 sleeps. -/
theorem send_packet_abandon_writes_nothing_witness :
    send_packet_wait SERIAL_TX_BUFFER_SIZE [7, 8, 9, 10, 11, 12, 13, 14, 15, 16].length idle 10 10
        (remaining_first SERIAL_TX_BUFFER_SIZE (tx_at 6 0).tx) (tx_at 6 0) =
        some (false, { tx_at 6 0 with sleeps := 10 }) ∧
      (send_packet SERIAL_TX_BUFFER_SIZE 10 idle [7, 8, 9, 10, 11, 12, 13, 14, 15, 16]
          (tx_at 6 0) = some { tx_at 6 0 with sleeps := 10 } ∧
        ({ tx_at 6 0 with sleeps := 10 } : Comm).tx.write_pos = (tx_at 6 0).tx.write_pos ∧
        ({ tx_at 6 0 with sleeps := 10 } : Comm).tx.buffer = (tx_at 6 0).tx.buffer ∧
        ({ tx_at 6 0 with sleeps := 10 } : Comm).write_signals = (tx_at 6 0).write_signals) :=
  ⟨rfl, send_packet_abandon_writes_nothing SERIAL_TX_BUFFER_SIZE 10 idle
    [7, 8, 9, 10, 11, 12, 13, 14, 15, 16] (tx_at 6 0) { tx_at 6 0 with sleeps := 10 } rfl⟩

/-- C4 (the code at the failing input): 5 bytes are unread, the payload has
3000 bytes (more than `C - 1 = 2047`) and the writer pops the 5 bytes during
the first sleep. The recomputation then sees an empty buffer, `remaining`
becomes `0 - 1` as an unsigned number, the loop is left and the 3000 bytes are
written: the write cursor moves from 5 to 957 and the writer is signalled. -/
theorem send_packet_writes_oversized_payload :
    (List.replicate 3000 0).length > SERIAL_TX_BUFFER_SIZE - 1 ∧
      remaining_retry SERIAL_TX_BUFFER_SIZE
        (chThdSleepMilliseconds SERIAL_TX_BUFFER_SIZE (pops_once 5) (tx_at 5 0)).tx =
          4294967295 ∧
      (send_packet SERIAL_TX_BUFFER_SIZE 10 (pops_once 5) (List.replicate 3000 0)
        (tx_at 5 0)).map (tx_view SERIAL_TX_BUFFER_SIZE) = some (5, 957, 1, 1, 952) :=
  ⟨by rw [List.length_replicate]; decide, by decide,
    (send_packet_view_of_wait SERIAL_TX_BUFFER_SIZE 10 (pops_once 5) (List.replicate 3000 0)
      (tx_at 5 0) _ 3000 (List.length_replicate _ _) rfl (by decide)).trans (by decide)⟩

/-- C5 (the code at the failing input): 2045 bytes are unread and the payload
has 3 bytes, one more than fits; the writer would pop 2 bytes during the first
sleep, after which the payload fits. `send_packet` does not sleep: it writes at
once, the write cursor wraps onto the read cursor and the occupancy is 0
instead of 2043 + 3. -/
theorem send_packet_skips_backpressure :
    occupancy SERIAL_TX_BUFFER_SIZE (tx_at 2045 0).tx = 2045 ∧
      3 > SERIAL_TX_BUFFER_SIZE - 1 - 2045 ∧
      tx_view SERIAL_TX_BUFFER_SIZE
        (chThdSleepMilliseconds SERIAL_TX_BUFFER_SIZE (pops_once 2) (tx_at 2045 0)) =
          (2, 2045, 1, 0, 2043) ∧
      3 ≤ SERIAL_TX_BUFFER_SIZE - 1 - 2043 ∧
      (send_packet SERIAL_TX_BUFFER_SIZE 10 (pops_once 2) [1, 2, 3] (tx_at 2045 0)).map
        (tx_view SERIAL_TX_BUFFER_SIZE) = some (0, 0, 0, 1, 0) := by
  decide

/-- C6 (the code at the failing input): the buffer is empty, the writer is idle
and the payload has 2048 bytes, so the loop condition holds on entry
(`2048 > 2047`). `send_packet` sleeps once, not 10 times, and then writes the
payload and signals the writer. -/
theorem send_packet_one_sleep_then_write :
    (List.replicate 2048 0).length > remaining_first SERIAL_TX_BUFFER_SIZE comm_init.tx ∧
      (send_packet SERIAL_TX_BUFFER_SIZE 10 idle (List.replicate 2048 0) comm_init).map
        (tx_view SERIAL_TX_BUFFER_SIZE) = some (0, 0, 1, 1, 0) :=
  ⟨by rw [List.length_replicate]; decide,
    (send_packet_view_of_wait SERIAL_TX_BUFFER_SIZE 10 idle (List.replicate 2048 0) comm_init
      { comm_init with sleeps := 1 } 2048 (List.length_replicate _ _) rfl (by decide)).trans
      (by decide)⟩

/-- C7: round trip. From an empty buffer with both cursors at `p < C`, a list
of at most `C - 1` bytes that is enqueued (by `send_packet` on the outbound
buffer, by one reader iteration for each byte on the inbound buffer) and then
drained (by the writer, by the processor) is handed out unchanged and in order,
and the buffer is empty afterwards. -/
theorem round_trip (C p fuel : Nat) (env : Nat → Nat) (bytes : List Nat) (s : Comm)
    (hC : C < 4294967296) (hp : p < C) (hn : bytes.length ≤ C - 1) (hfuel : 1 ≤ fuel) :
    (s.tx.read_pos = p → s.tx.write_pos = p →
      ∃ s1 s2, send_packet C fuel env bytes s = some s1 ∧ s1.sleeps = s.sleeps ∧
        serial_write_thread_drain C (bytes.length + 1) s1 = some s2 ∧
        s2.link_tx = s.link_tx ++ bytes ∧ s2.tx.read_pos = s2.tx.write_pos ∧
        s2.tx.write_pos = (p + bytes.length) % C) ∧
    (s.rx.read_pos = p → s.rx.write_pos = p →
      ∃ s2, serial_process_thread_drain C (bytes.length + 1)
          (bytes.foldl (fun st b => serial_read_thread_iter C [b] st) s) = some s2 ∧
        s2.framer_rx = s.framer_rx ++ bytes ∧ s2.rx.read_pos = s2.rx.write_pos ∧
        s2.rx.write_pos = (p + bytes.length) % C) := by
  constructor
  · intro hr hw
    have hrange : in_range C s.tx := ⟨by omega, by omega⟩
    have hocc : occupancy C s.tx = 0 :=
      (occupancy_eq_zero_iff C s.tx hrange).mpr (hr.trans hw.symm)
    have hun : unread C s.tx = [] := by
      apply List.eq_nil_of_length_eq_zero; rw [unread_length, hocc]
    obtain ⟨u1, u2⟩ := push_all_unread C bytes s.tx hrange (by omega)
    have hwp := push_all_write_pos C bytes s.tx (by omega)
    have hrem := remaining_first_empty C s.tx hC (by omega) (hr.trans hw.symm)
    obtain ⟨k, rfl⟩ : ∃ k, fuel = k + 1 := ⟨fuel - 1, by omega⟩
    have hwait := send_packet_wait_now C bytes.length env k 10 (remaining_first C s.tx) s
      (by omega)
    have hsend : send_packet C (k + 1) env bytes s =
        some { s with tx := bytes.foldl (push_byte C) s.tx,
                      write_signals := s.write_signals + 1 } := by
      unfold send_packet
      simp only [hwait]
    have hdrain := write_drain_spec C bytes.length
      { s with tx := bytes.foldl (push_byte C) s.tx, write_signals := s.write_signals + 1 }
      (bytes.length + 1) (push_all_in_range C bytes s.tx hrange) (by simp [u2, hocc])
      (by omega)
    refine ⟨_, _, hsend, rfl, hdrain, ?_, rfl, ?_⟩
    · simp [u1, hun]
    · simp [hwp, hw]
  · intro hr hw
    have hrange : in_range C s.rx := ⟨by omega, by omega⟩
    have hocc : occupancy C s.rx = 0 :=
      (occupancy_eq_zero_iff C s.rx hrange).mpr (hr.trans hw.symm)
    have hun : unread C s.rx = [] := by
      apply List.eq_nil_of_length_eq_zero; rw [unread_length, hocc]
    obtain ⟨u1, u2⟩ := push_all_unread C bytes s.rx hrange (by omega)
    have hwp := push_all_write_pos C bytes s.rx (by omega)
    obtain ⟨e1, e2⟩ := read_iters_rx C bytes s
    have hdrain := process_drain_spec C bytes.length
      (bytes.foldl (fun st b => serial_read_thread_iter C [b] st) s) (bytes.length + 1)
      (by rw [e1]; exact push_all_in_range C bytes s.rx hrange)
      (by rw [e1, u2, hocc]; omega) (by omega)
    refine ⟨_, hdrain, ?_, rfl, ?_⟩
    · simp [e1, e2, u1, hun]
    · simp [e1, hwp, hw]

/-- Witness of C7: capacity 8, both buffers empty at position 6, five bytes;
the positions wrap from 7 to 0. -/
theorem round_trip_witness :
    (8 < 4294967296 ∧ 6 < 8 ∧ [1, 2, 3, 4, 5].length ≤ 8 - 1 ∧ 1 ≤ 1) ∧
    (∃ s1 s2, send_packet 8 1 idle [1, 2, 3, 4, 5] (cursors_at 6) = some s1 ∧
        s1.sleeps = (cursors_at 6).sleeps ∧
        serial_write_thread_drain 8 ([1, 2, 3, 4, 5].length + 1) s1 = some s2 ∧
        s2.link_tx = (cursors_at 6).link_tx ++ [1, 2, 3, 4, 5] ∧
        s2.tx.read_pos = s2.tx.write_pos ∧
        s2.tx.write_pos = (6 + [1, 2, 3, 4, 5].length) % 8) ∧
    (∃ s2, serial_process_thread_drain 8 ([1, 2, 3, 4, 5].length + 1)
          ([1, 2, 3, 4, 5].foldl (fun st b => serial_read_thread_iter 8 [b] st)
            (cursors_at 6)) = some s2 ∧
        s2.framer_rx = (cursors_at 6).framer_rx ++ [1, 2, 3, 4, 5] ∧
        s2.rx.read_pos = s2.rx.write_pos ∧
        s2.rx.write_pos = (6 + [1, 2, 3, 4, 5].length) % 8) :=
  ⟨by decide,
    (round_trip 8 6 1 idle [1, 2, 3, 4, 5] (cursors_at 6) (by decide) (by decide) (by decide)
      (by decide)).1 rfl rfl,
    (round_trip 8 6 1 idle [1, 2, 3, 4, 5] (cursors_at 6) (by decide) (by decide) (by decide)
      (by decide)).2 rfl rfl⟩

/-- C8: with whole pushes and pops as atomic steps, a push taken only when
`occupancy < C - 1` and a pop only when `read_pos != write_pos`, the buffer
started empty at a position `p < C` and the FIFO queue of the specification
agree after every schedule: the same bytes were accepted and the same bytes
were handed out, the unread bytes of the buffer are the queue, the popped bytes
followed by the unread bytes are the pushed bytes, and the occupancy formula
gives the number of unread bytes, at most `C - 1`. -/
theorem ring_refines_fifo (C p : Nat) (buf : Nat → Nat) (ops : List Op) (hp : p < C) :
    (ops.foldl (ring_step C) ⟨⟨buf, p, p⟩, [], []⟩).pushed =
        (ops.foldl (fifo_step C) ⟨[], [], []⟩).pushed ∧
      (ops.foldl (ring_step C) ⟨⟨buf, p, p⟩, [], []⟩).popped =
        (ops.foldl (fifo_step C) ⟨[], [], []⟩).popped ∧
      unread C (ops.foldl (ring_step C) ⟨⟨buf, p, p⟩, [], []⟩).ring =
        (ops.foldl (fifo_step C) ⟨[], [], []⟩).queue ∧
      (ops.foldl (ring_step C) ⟨⟨buf, p, p⟩, [], []⟩).popped ++
          unread C (ops.foldl (ring_step C) ⟨⟨buf, p, p⟩, [], []⟩).ring =
        (ops.foldl (ring_step C) ⟨⟨buf, p, p⟩, [], []⟩).pushed ∧
      occupancy C (ops.foldl (ring_step C) ⟨⟨buf, p, p⟩, [], []⟩).ring =
        (unread C (ops.foldl (ring_step C) ⟨⟨buf, p, p⟩, [], []⟩).ring).length ∧
      occupancy C (ops.foldl (ring_step C) ⟨⟨buf, p, p⟩, [], []⟩).ring ≤ C - 1 ∧
      in_range C (ops.foldl (ring_step C) ⟨⟨buf, p, p⟩, [], []⟩).ring := by
  have hu : unread C ⟨buf, p, p⟩ = [] := by simp [unread, occupancy]
  obtain ⟨a, b, c, d, e, f⟩ :=
    ring_run_sim C ops ⟨⟨buf, p, p⟩, [], []⟩ ⟨[], [], []⟩ ⟨hp, hp⟩ rfl rfl hu rfl
      (Nat.zero_le _)
  refine ⟨b, c, d, ?_, (unread_length C _).symm, ?_, a⟩
  · rw [b, c, d]; exact e
  · rw [← unread_length, d]; exact f

/-- Witness of C8: capacity 4 and a schedule of pushes and pops in which one
push finds the buffer full and is not taken. -/
theorem ring_refines_fifo_witness :
    0 < 4 ∧
    ((([Op.push 1, Op.push 2, Op.pop, Op.push 3, Op.push 4, Op.push 5, Op.pop, Op.pop, Op.push 6,
          Op.pop].foldl (ring_step 4) ⟨⟨fun _ => 0, 0, 0⟩, [], []⟩).popped = [1, 2, 3, 4]) ∧
     (unread 4 ([Op.push 1, Op.push 2, Op.pop, Op.push 3, Op.push 4, Op.push 5, Op.pop, Op.pop,
          Op.push 6, Op.pop].foldl (ring_step 4) ⟨⟨fun _ => 0, 0, 0⟩, [], []⟩).ring = [6])) :=
  ⟨by decide,
   by
    have h := ring_refines_fifo 4 0 (fun _ => 0) [Op.push 1, Op.push 2, Op.pop, Op.push 3,
      Op.push 4, Op.push 5, Op.pop, Op.pop, Op.push 6, Op.pop] (by decide)
    exact ⟨h.2.1.trans (by decide), h.2.2.1.trans (by decide)⟩⟩

/-- C9 (counterexample): after 2048 reader pushes and no pop on the inbound
buffer of the program, `read_pos = write_pos` although 2048 bytes were pushed
and none was popped. -/
theorem rx_empty_iff_counts_equal_fails :
    ¬ (((List.replicate 2048 (Op.push 0)).foldl (rx_step SERIAL_RX_BUFFER_SIZE)
          comm_init).rx.read_pos =
        ((List.replicate 2048 (Op.push 0)).foldl (rx_step SERIAL_RX_BUFFER_SIZE)
          comm_init).rx.write_pos ↔
      pushes (List.replicate 2048 (Op.push 0)) =
        ((List.replicate 2048 (Op.push 0)).foldl (rx_step SERIAL_RX_BUFFER_SIZE)
          comm_init).framer_rx.length) := by
  obtain ⟨h1, h2, h3, h4⟩ := rx_overrun_state SERIAL_RX_BUFFER_SIZE 2048 0 (by decide)
  rw [h1, h2, h3, h4]
  decide

/-- C9 (amended): for every schedule of reader pushes and processor pops on the
inbound buffer from the initial state, the pops being taken only when
`read_pos != write_pos`, the number of pops is at most the number of pushes,
and `read_pos = write_pos` holds exactly when the number of pushes minus the
number of pops is a multiple of `C`; while fewer than `C` pushed bytes are
unpopped, this is exactly when no unread byte remains. -/
theorem rx_empty_iff_counts_congruent (C : Nat) (ops : List Op) (hC : 0 < C) :
    (ops.foldl (rx_step C) comm_init).framer_rx.length ≤ pushes ops ∧
      ((ops.foldl (rx_step C) comm_init).rx.read_pos =
          (ops.foldl (rx_step C) comm_init).rx.write_pos ↔
        C ∣ pushes ops - (ops.foldl (rx_step C) comm_init).framer_rx.length) ∧
      (pushes ops - (ops.foldl (rx_step C) comm_init).framer_rx.length < C →
        ((ops.foldl (rx_step C) comm_init).rx.read_pos =
            (ops.foldl (rx_step C) comm_init).rx.write_pos ↔
          pushes ops = (ops.foldl (rx_step C) comm_init).framer_rx.length)) := by
  obtain ⟨a, b, c⟩ := rx_run_inv C hC ops comm_init 0 (Nat.zero_mod C).symm
    (Nat.zero_mod C).symm (Nat.le_refl _)
  rw [Nat.zero_add] at a c
  have key : (ops.foldl (rx_step C) comm_init).rx.read_pos =
      (ops.foldl (rx_step C) comm_init).rx.write_pos ↔
      C ∣ pushes ops - (ops.foldl (rx_step C) comm_init).framer_rx.length := by
    rw [a, b]
    exact (Nat.modEq_iff_dvd' c)
  refine ⟨c, key, ?_⟩
  intro hlt
  rw [key]
  constructor
  · intro hd
    have := Nat.eq_zero_of_dvd_of_lt hd hlt
    omega
  · intro he
    rw [he, Nat.sub_self]
    exact Nat.dvd_zero C

/-- Witness of C9 (amended): capacity 8, two pushes and three pops, the last
of which finds the buffer empty. -/
theorem rx_empty_iff_counts_congruent_witness :
    0 < 8 ∧
      (([Op.push 1, Op.push 2, Op.pop, Op.pop, Op.pop].foldl (rx_step 8) comm_init).framer_rx.length
          ≤ pushes [Op.push 1, Op.push 2, Op.pop, Op.pop, Op.pop] ∧
        (([Op.push 1, Op.push 2, Op.pop, Op.pop, Op.pop].foldl (rx_step 8) comm_init).rx.read_pos =
            ([Op.push 1, Op.push 2, Op.pop, Op.pop, Op.pop].foldl (rx_step 8)
              comm_init).rx.write_pos ↔
          8 ∣ pushes [Op.push 1, Op.push 2, Op.pop, Op.pop, Op.pop] -
            ([Op.push 1, Op.push 2, Op.pop, Op.pop, Op.pop].foldl (rx_step 8)
              comm_init).framer_rx.length) ∧
        (pushes [Op.push 1, Op.push 2, Op.pop, Op.pop, Op.pop] -
            ([Op.push 1, Op.push 2, Op.pop, Op.pop, Op.pop].foldl (rx_step 8)
              comm_init).framer_rx.length < 8 →
          (([Op.push 1, Op.push 2, Op.pop, Op.pop, Op.pop].foldl (rx_step 8)
                comm_init).rx.read_pos =
              ([Op.push 1, Op.push 2, Op.pop, Op.pop, Op.pop].foldl (rx_step 8)
                comm_init).rx.write_pos ↔
            pushes [Op.push 1, Op.push 2, Op.pop, Op.pop, Op.pop] =
              ([Op.push 1, Op.push 2, Op.pop, Op.pop, Op.pop].foldl (rx_step 8)
                comm_init).framer_rx.length))) :=
  ⟨by decide,
    rx_empty_iff_counts_congruent 8 [Op.push 1, Op.push 2, Op.pop, Op.pop, Op.pop] (by decide)⟩

/-- C10: called with the mutex free and fuel for the retry loops,
`comm_usb_send_packet` returns for every input, every framer and every
consumer, and the mutex is free in the state in which it returns. The framer
is entered in the entry state with the mutex taken; the states in which it
stands are linked by its calls of `send_packet` on the frames, whatever the
outcome of each call; the mutex is held in every one of these states and after
every sleep of a call of `send_packet` made there; and the function returns
the last of these states with the mutex released. -/
theorem comm_usb_send_packet_mutex (framer : List Nat → List (List Nat)) (C fuel : Nat)
    (env : Nat → Nat) (data : List Nat) (s : Comm) (hfuel : 10 ≤ fuel)
    (hfree : s.send_mutex = false) :
    ∃ s2 during, comm_usb_send_packet framer C fuel env data s = some (s2, during) ∧
      s2.send_mutex = false ∧
      during.length = (framer data).length + 1 ∧
      during.head? = some { s with send_mutex := true } ∧
      (∀ i frame, (framer data)[i]? = some frame →
        ∃ t t1, during[i]? = some t ∧ during[i + 1]? = some t1 ∧
          send_packet C fuel env frame t = some t1) ∧
      (∃ t, during.getLast? = some t ∧ s2 = chMtxUnlock t) ∧
      (∀ t, t ∈ during →
        t.send_mutex = true ∧ ∀ j, (after_sleeps C env j t).send_mutex = true) := by
  have hl : chMtxLock s = some { s with send_mutex := true } := by
    simp [chMtxLock, hfree]
  obtain ⟨s2, during, e, hlen, hhead, hlast, hlink, hmutex⟩ :=
    framer_emit_total C fuel env (framer data) { s with send_mutex := true } hfuel
  refine ⟨chMtxUnlock s2, during, ?_, rfl, hlen, hhead, hlink, ⟨s2, hlast, rfl⟩, ?_⟩
  · simp only [comm_usb_send_packet, hl, packet_send_packet, e]
  · intro t ht
    have hm : t.send_mutex = true := hmutex t ht
    refine ⟨hm, fun j => ?_⟩
    obtain ⟨⟨_, _, _, w4, _⟩, _⟩ := after_sleeps_writer_only C env j t
    rw [w4, hm]

/-- Witness of C10: 6 bytes unread, an idle writer and a frame of 10 bytes, for
which `send_packet` returns on timeout after 10 sleeps. The framer stands in
two states, both with the mutex held; the function returns with the mutex
free. -/
theorem comm_usb_send_packet_mutex_witness :
    (10 ≤ 10 ∧ (tx_at 6 0).send_mutex = false) ∧
      (∃ s2 during, comm_usb_send_packet (fun d => [2 :: d.length :: d ++ [3]])
          SERIAL_TX_BUFFER_SIZE 10 idle [1, 2, 3, 4, 5, 6, 7] (tx_at 6 0) = some (s2, during) ∧
        s2.send_mutex = false ∧ during.length = 2 ∧
        ∀ t, t ∈ during → t.send_mutex = true) ∧
      (comm_usb_send_packet (fun d => [2 :: d.length :: d ++ [3]]) SERIAL_TX_BUFFER_SIZE 10
          idle [1, 2, 3, 4, 5, 6, 7] (tx_at 6 0)).map
        (fun r => (r.1.send_mutex, r.1.sleeps, r.1.tx.write_pos,
          r.2.map (fun t => (t.send_mutex, t.sleeps)))) =
        some (false, 10, 6, [(true, 0), (true, 10)]) :=
  ⟨⟨by decide, rfl⟩,
    by
      obtain ⟨s2, during, h1, h2, h3, _, _, _, h7⟩ :=
        comm_usb_send_packet_mutex (fun d => [2 :: d.length :: d ++ [3]])
          SERIAL_TX_BUFFER_SIZE 10 idle [1, 2, 3, 4, 5, 6, 7] (tx_at 6 0) (by decide) rfl
      exact ⟨s2, during, h1, h2, h3, fun t ht => (h7 t ht).1⟩,
    by decide⟩

/-- C11 (the code at the failing input): with `write_pos = 100` and
`read_pos = 40` in the 2048-byte outbound buffer the occupancy is 60 and
`C - 1 - occupancy` is 1987, but both computations of `remaining` in
`send_packet` give 59, the occupancy minus one. -/
theorem remaining_is_not_free_space :
    occupancy SERIAL_TX_BUFFER_SIZE (tx_at 100 40).tx = 60 ∧
      SERIAL_TX_BUFFER_SIZE - 1 - occupancy SERIAL_TX_BUFFER_SIZE (tx_at 100 40).tx = 1987 ∧
      remaining_first SERIAL_TX_BUFFER_SIZE (tx_at 100 40).tx = 59 ∧
      remaining_retry SERIAL_TX_BUFFER_SIZE (tx_at 100 40).tx = 59 := by
  decide

/-- C12: for cursors in `[0, C)` and `C < 2 ^ 32`, the two computations of
`remaining` agree when `write_pos != read_pos`; when `write_pos == read_pos`
the first gives `C - 1`, the recomputation gives `0 - 1` modulo `2 ^ 32`, that
is 4294967295, the two differ, and `len > remaining` is false after the
recomputation for every `len` of 32 bits. -/
theorem remaining_first_vs_retry (C : Nat) (r : Ring) (hC : C < 4294967296)
    (h : in_range C r) :
    (r.write_pos ≠ r.read_pos → remaining_first C r = remaining_retry C r) ∧
      (r.write_pos = r.read_pos →
        remaining_first C r = C - 1 ∧ remaining_retry C r = 4294967295 ∧
        remaining_first C r ≠ remaining_retry C r ∧
        ∀ len, len < 4294967296 → ¬ len > remaining_retry C r) := by
  obtain ⟨hr, hw⟩ := h
  constructor
  · intro hne
    simp only [remaining_first, remaining_retry]
    split <;> split <;> omega
  · intro heq
    have h1 : remaining_first C r = C - 1 := by
      simp only [remaining_first, heq, gt_iff_lt, lt_self_iff_false, if_false]
      omega
    have h2 : remaining_retry C r = 4294967295 := by
      simp only [remaining_retry, heq, ge_iff_le, le_refl, if_true]
      omega
    refine ⟨h1, h2, ?_, ?_⟩
    · rw [h1, h2]; omega
    · intro len hlen; rw [h2]; omega

/-- Witness of C12: the program's buffer, empty at position 5. -/
theorem remaining_first_vs_retry_witness :
    (SERIAL_TX_BUFFER_SIZE < 4294967296 ∧ in_range SERIAL_TX_BUFFER_SIZE (tx_at 5 5).tx) ∧
      remaining_first SERIAL_TX_BUFFER_SIZE (tx_at 5 5).tx = 2047 ∧
      remaining_retry SERIAL_TX_BUFFER_SIZE (tx_at 5 5).tx = 4294967295 :=
  ⟨⟨by decide, by decide, by decide⟩,
    ((remaining_first_vs_retry SERIAL_TX_BUFFER_SIZE (tx_at 5 5).tx (by decide)
      ⟨by decide, by decide⟩).2 rfl).1,
    ((remaining_first_vs_retry SERIAL_TX_BUFFER_SIZE (tx_at 5 5).tx (by decide)
      ⟨by decide, by decide⟩).2 rfl).2.1⟩

/-- C13: started with the cursors of its buffer in `[0, C)` and with no push in
between, the drain loop of the processor, and likewise that of the writer,
leaves the loop at its `(occupancy + 1)`-th test of the loop condition and not
earlier, that is after exactly `occupancy` iterations. It hands the unread
bytes, oldest first, to the framer (to the link), ends with
`read_pos = write_pos`, and changes neither `write_pos` nor the buffer nor
anything else of the state. -/
theorem drain_loops_terminate (C : Nat) (s : Comm) :
    (in_range C s.rx →
      (∀ fuel, fuel ≤ occupancy C s.rx → serial_process_thread_drain C fuel s = none) ∧
      (∀ fuel, occupancy C s.rx < fuel →
        serial_process_thread_drain C fuel s =
          some { s with
            rx := { buffer := s.rx.buffer, read_pos := s.rx.write_pos,
                    write_pos := s.rx.write_pos }
            framer_rx := s.framer_rx ++ unread C s.rx }) ∧
      (unread C s.rx).length = occupancy C s.rx) ∧
    (in_range C s.tx →
      (∀ fuel, fuel ≤ occupancy C s.tx → serial_write_thread_drain C fuel s = none) ∧
      (∀ fuel, occupancy C s.tx < fuel →
        serial_write_thread_drain C fuel s =
          some { s with
            tx := { buffer := s.tx.buffer, read_pos := s.tx.write_pos,
                    write_pos := s.tx.write_pos }
            link_tx := s.link_tx ++ unread C s.tx }) ∧
      (unread C s.tx).length = occupancy C s.tx) :=
  ⟨fun h => ⟨fun fuel hf => process_drain_short C fuel s h hf,
      fun fuel hf => process_drain_spec C _ s fuel h rfl hf, unread_length C s.rx⟩,
    fun h => ⟨fun fuel hf => write_drain_short C fuel s h hf,
      fun fuel hf => write_drain_spec C _ s fuel h rfl hf, unread_length C s.tx⟩⟩

/-- Witness of C13: capacity 8, `read_pos = 6`, `write_pos = 1`, slot `i`
holding `10 + i`: three bytes are unread, the loops need four tests of their
condition, and the bytes of the slots 6, 7, 0 are handed out in this order. -/
theorem drain_loops_terminate_witness :
    (in_range 8 (⟨fun i => 10 + i, 6, 1⟩ : Ring) ∧ occupancy 8 ⟨fun i => 10 + i, 6, 1⟩ = 3) ∧
      serial_process_thread_drain 8 3 { comm_init with rx := ⟨fun i => 10 + i, 6, 1⟩ } = none ∧
      (serial_process_thread_drain 8 4 { comm_init with rx := ⟨fun i => 10 + i, 6, 1⟩ }).map
        (fun s => (s.framer_rx, s.rx.read_pos, s.rx.write_pos)) = some ([16, 17, 10], 1, 1) ∧
      serial_write_thread_drain 8 3 { comm_init with tx := ⟨fun i => 10 + i, 6, 1⟩ } = none ∧
      (serial_write_thread_drain 8 4 { comm_init with tx := ⟨fun i => 10 + i, 6, 1⟩ }).map
        (fun s => (s.link_tx, s.tx.read_pos, s.tx.write_pos)) = some ([16, 17, 10], 1, 1) :=
  ⟨⟨⟨by decide, by decide⟩, by decide⟩,
    ((drain_loops_terminate 8 { comm_init with rx := ⟨fun i => 10 + i, 6, 1⟩ }).1
      ⟨by decide, by decide⟩).1 3 (by decide),
    by rw [((drain_loops_terminate 8 { comm_init with rx := ⟨fun i => 10 + i, 6, 1⟩ }).1
      ⟨by decide, by decide⟩).2.1 4 (by decide)]; decide,
    ((drain_loops_terminate 8 { comm_init with tx := ⟨fun i => 10 + i, 6, 1⟩ }).2
      ⟨by decide, by decide⟩).1 3 (by decide),
    by rw [((drain_loops_terminate 8 { comm_init with tx := ⟨fun i => 10 + i, 6, 1⟩ }).2
      ⟨by decide, by decide⟩).2.1 4 (by decide)]; decide⟩

/-- C14 (the code at the failing schedule): the inbound buffer of the program
is empty with both cursors at 2047. The reader stores one byte and
`write_pos + 1`; before it runs its wrap test the processor runs. The
processor observes `write_pos = 2048`, outside `[0, 2048)`; it pops slot 2047,
wraps `read_pos` to 0, finds `0 != 2048` and pops slot 0, which holds no
unread byte: one byte was pushed and two were handed to the framer. -/
theorem fine_interleaving_leaves_range :
    ([Move.producer 7].foldl (fine_step SERIAL_RX_BUFFER_SIZE) (fine_at 2047)).ring.write_pos =
        2048 ∧
      ([Move.producer 7, Move.consumer, Move.consumer, Move.consumer].foldl
        (fine_step SERIAL_RX_BUFFER_SIZE) (fine_at 2047)).pushed = [7] ∧
      ([Move.producer 7, Move.consumer, Move.consumer, Move.consumer].foldl
        (fine_step SERIAL_RX_BUFFER_SIZE) (fine_at 2047)).popped = [7, 0] ∧
      ([Move.producer 7, Move.consumer, Move.consumer, Move.consumer].foldl
        (fine_step SERIAL_RX_BUFFER_SIZE) (fine_at 2047)).ring.read_pos = 1 := by
  decide

/-- C15: every whole operation keeps the cursors of its buffer in `[0, C)`.
For cursors in `[0, C)`: a reader iteration, a processor pop and a writer pop
end with cursors in `[0, C)`; `send_packet` with fuel for its loop returns for
a payload of any length with cursors in `[0, C)`. Every push of a reader
iteration and of `send_packet` stores at a `write_pos` below `C`, no slot at
or above `C` changes, the occupancy formula is at most `C - 1`, and the size
at which the outbound cursor wraps is the size of the outbound array. -/
theorem whole_operations_stay_in_range (C fuel : Nat) (env : Nat → Nat) (data : List Nat)
    (s : Comm) (hfuel : 10 ≤ fuel) :
    (in_range C s.rx →
      in_range C (serial_read_thread_iter C data s).rx ∧
      (∀ k, in_range C ((data.take k).foldl (push_byte C) s.rx)) ∧
      (∀ i, C ≤ i → (serial_read_thread_iter C data s).rx.buffer i = s.rx.buffer i) ∧
      in_range C (serial_process_thread_iter C s).rx ∧
      occupancy C s.rx ≤ C - 1) ∧
    (in_range C s.tx →
      in_range C (serial_write_thread_iter C s).tx ∧
      (∃ b s1 s2, send_packet_wait C data.length env fuel 10 (remaining_first C s.tx) s =
          some (b, s1) ∧
        in_range C s1.tx ∧
        (∀ k, in_range C ((data.take k).foldl (push_byte C) s1.tx)) ∧
        send_packet C fuel env data s = some s2 ∧
        in_range C s2.tx ∧
        (∀ i, C ≤ i → s2.tx.buffer i = s.tx.buffer i) ∧
        occupancy C s2.tx ≤ C - 1) ∧
      occupancy C s.tx ≤ C - 1) ∧
    SERIAL_TX_BUFFER_SIZE = SERIAL_RX_BUFFER_SIZE := by
  refine ⟨?_, ?_, rfl⟩
  · intro h
    have hrx : (serial_read_thread_iter C data s).rx = data.foldl (push_byte C) s.rx := by
      simp only [serial_read_thread_iter, read_fold_rx]
      split <;> rfl
    refine ⟨?_, fun k => push_all_in_range C _ s.rx h, ?_, process_iter_in_range C s h, ?_⟩
    · rw [hrx]; exact push_all_in_range C data s.rx h
    · intro i hi
      rw [hrx]; exact push_all_buffer_outside C data s.rx h.2 i hi
    · have := occupancy_lt C s.rx h; omega
  · intro h
    refine ⟨write_iter_in_range C s h, ?_, ?_⟩
    · obtain ⟨b, s1, e, w, _, _⟩ :=
        send_packet_wait_total C data.length env fuel 10 (remaining_first C s.tx) s
          (by omega) hfuel
      have hr1 := send_packet_wait_in_range C _ env fuel 10 _ s b s1 h e
      obtain ⟨_, w2, _⟩ := w
      cases b with
      | false =>
        refine ⟨false, s1, s1, e, hr1, fun k => push_all_in_range C _ s1.tx hr1, ?_, hr1, ?_, ?_⟩
        · unfold send_packet; simp only [e]
        · intro i _; rw [w2]
        · have := occupancy_lt C s1.tx hr1; omega
      | true =>
        have hr2 := push_all_in_range C data s1.tx hr1
        refine ⟨true, s1,
          { s1 with tx := data.foldl (push_byte C) s1.tx,
                    write_signals := s1.write_signals + 1 },
          e, hr1, fun k => push_all_in_range C _ s1.tx hr1, ?_, hr2, ?_, ?_⟩
        · unfold send_packet; simp only [e]
        · intro i hi
          show (data.foldl (push_byte C) s1.tx).buffer i = s.tx.buffer i
          rw [push_all_buffer_outside C data s1.tx hr1.2 i hi, w2]
        · have := occupancy_lt C _ hr2
          show occupancy C (data.foldl (push_byte C) s1.tx) ≤ C - 1
          omega
    · have := occupancy_lt C s.tx h; omega

/-- Witness of C15: the program's outbound buffer, empty, and a payload of 3000
bytes, more than the buffer holds: `send_packet` returns with the cursors in
range. -/
theorem whole_operations_stay_in_range_witness :
    (10 ≤ 10 ∧ in_range SERIAL_TX_BUFFER_SIZE comm_init.tx) ∧
      ∃ b s1 s2, send_packet_wait SERIAL_TX_BUFFER_SIZE (List.replicate 3000 0).length idle 10 10
          (remaining_first SERIAL_TX_BUFFER_SIZE comm_init.tx) comm_init = some (b, s1) ∧
        in_range SERIAL_TX_BUFFER_SIZE s1.tx ∧
        (∀ k, in_range SERIAL_TX_BUFFER_SIZE
          (((List.replicate 3000 0).take k).foldl (push_byte SERIAL_TX_BUFFER_SIZE) s1.tx)) ∧
        send_packet SERIAL_TX_BUFFER_SIZE 10 idle (List.replicate 3000 0) comm_init = some s2 ∧
        in_range SERIAL_TX_BUFFER_SIZE s2.tx ∧
        (∀ i, SERIAL_TX_BUFFER_SIZE ≤ i → s2.tx.buffer i = comm_init.tx.buffer i) ∧
        occupancy SERIAL_TX_BUFFER_SIZE s2.tx ≤ SERIAL_TX_BUFFER_SIZE - 1 :=
  ⟨⟨by decide, by decide, by decide⟩,
    ((whole_operations_stay_in_range SERIAL_TX_BUFFER_SIZE 10 idle (List.replicate 3000 0)
      comm_init (by decide)).2.1 ⟨by decide, by decide⟩).2.1⟩

/-- C16: one iteration of the reader loop, entered with `had_data = 0`. If the
link read returned no byte, the state is unchanged (no signal, same buffer,
same cursors). If it returned bytes, the processor is signalled exactly once
and the bytes are pushed in order; for one byte `b` and `write_pos < C` the
byte is stored at `write_pos`, no other slot changes, `write_pos` becomes
`(write_pos + 1) % C` and `read_pos` is unchanged. In both cases the
iteration ends with `had_data = 0`, so the next one is entered in the same
way, and the iteration is the one that `serial_read_thread_iter` describes. -/
theorem reader_iteration_signals_once (C : Nat) (data : List Nat) (b : Nat) (s : Comm)
    (hw : s.rx.write_pos < C) :
    serial_read_thread_body C [] false s = (false, s) ∧
      serial_read_thread_body C data false s = (false, serial_read_thread_iter C data s) ∧
      (data.length > 0 →
        serial_read_thread_iter C data s =
          { s with rx := data.foldl (push_byte C) s.rx,
                   process_signals := s.process_signals + 1 }) ∧
      (serial_read_thread_iter C [b] s).process_signals = s.process_signals + 1 ∧
      (serial_read_thread_iter C [b] s).rx.buffer = Function.update s.rx.buffer s.rx.write_pos b ∧
      (serial_read_thread_iter C [b] s).rx.write_pos = (s.rx.write_pos + 1) % C ∧
      (serial_read_thread_iter C [b] s).rx.read_pos = s.rx.read_pos := by
  refine ⟨rfl, ?_, ?_, rfl, rfl, push_byte_write_pos C s.rx b hw, rfl⟩
  · simp only [serial_read_thread_body, read_body_fold, Bool.false_or, serial_read_thread_iter]
    by_cases h : data.length > 0
    · simp [h]
    · simp [h]
  · intro h
    simp only [serial_read_thread_iter, h, if_true, read_fold_rx]

/-- Witness of C16: the inbound buffer of the program with `write_pos` at the
last slot, and a read that returned one byte. -/
theorem reader_iteration_signals_once_witness :
    (cursors_at 2047).rx.write_pos < SERIAL_RX_BUFFER_SIZE ∧
      (serial_read_thread_iter SERIAL_RX_BUFFER_SIZE [9] (cursors_at 2047)).process_signals = 1 ∧
      (serial_read_thread_iter SERIAL_RX_BUFFER_SIZE [9] (cursors_at 2047)).rx.write_pos = 0 :=
  ⟨by decide,
    (reader_iteration_signals_once SERIAL_RX_BUFFER_SIZE [9] 9 (cursors_at 2047)
      (by decide)).2.2.2.1,
    (reader_iteration_signals_once SERIAL_RX_BUFFER_SIZE [9] 9 (cursors_at 2047)
      (by decide)).2.2.2.2.2.1.trans (by decide)⟩

/-- C17: `send_packet` with fuel for its loop. If the loop condition
`len > remaining` is false at the test that follows `k <= 9` sleeps and true at
all earlier tests, the payload is written after exactly `k` sleeps and the
writer is signalled. If it is true at the tests after 0, 1, ..., 9 sleeps, the
function returns after the 10th sleep without writing, whatever the
recomputation after the 10th sleep gives. Hence the payload is written if and
only if the condition is false at one of the tests after at most 9 sleeps. -/
theorem send_packet_written_iff (C fuel : Nat) (env : Nat → Nat) (buffer : List Nat)
    (s : Comm) (hfuel : 10 ≤ fuel) :
    (∀ k, k ≤ 9 → (∀ j, j < k → buffer.length > remaining_at C env s j) →
      ¬ buffer.length > remaining_at C env s k →
      send_packet C fuel env buffer s =
        some { after_sleeps C env k s with
          tx := buffer.foldl (push_byte C) (after_sleeps C env k s).tx
          write_signals := (after_sleeps C env k s).write_signals + 1 }) ∧
    ((∀ j, j ≤ 9 → buffer.length > remaining_at C env s j) →
      send_packet C fuel env buffer s = some (after_sleeps C env 10 s) ∧
      (after_sleeps C env 10 s).write_signals = s.write_signals ∧
      (after_sleeps C env 10 s).tx.write_pos = s.tx.write_pos ∧
      (after_sleeps C env 10 s).tx.buffer = s.tx.buffer) ∧
    ((∃ s1, send_packet C fuel env buffer s = some s1 ∧
        s1.write_signals = s.write_signals + 1) ↔
      ∃ k, k ≤ 9 ∧ ¬ buffer.length > remaining_at C env s k) := by
  have hexit : ∀ k, k ≤ 9 → (∀ j, j < k → buffer.length > remaining_at C env s j) →
      ¬ buffer.length > remaining_at C env s k →
      send_packet C fuel env buffer s =
        some { after_sleeps C env k s with
          tx := buffer.foldl (push_byte C) (after_sleeps C env k s).tx
          write_signals := (after_sleeps C env k s).write_signals + 1 } := by
    intro k hk hbefore hat
    have hw := send_packet_wait_exit C buffer.length env fuel 10 (remaining_first C s.tx) s k
      (by omega) hfuel
      (fun j hj => by rw [← remaining_at_eq]; exact hbefore j hj)
      (by rw [← remaining_at_eq]; exact hat)
    unfold send_packet
    simp only [hw]
  have habandon : (∀ j, j ≤ 9 → buffer.length > remaining_at C env s j) →
      send_packet C fuel env buffer s = some (after_sleeps C env 10 s) := by
    intro hall
    have hw := send_packet_wait_abandon C buffer.length env fuel 10 (remaining_first C s.tx) s
      (by omega) hfuel
      (fun j hj => by rw [← remaining_at_eq]; exact hall j (by omega))
    unfold send_packet
    simp only [hw]
  obtain ⟨⟨w1, w2, _, _, w5, _⟩, _⟩ := after_sleeps_writer_only C env 10 s
  refine ⟨hexit, fun hall => ⟨habandon hall, w5, w1, w2⟩, ?_, ?_⟩
  · rintro ⟨s1, hs1, hsig⟩
    by_contra hno
    have hall : ∀ j, j ≤ 9 → buffer.length > remaining_at C env s j := by
      intro j hj
      by_contra hc
      exact hno ⟨j, hj, hc⟩
    rw [habandon hall] at hs1
    have : s1 = after_sleeps C env 10 s := (Option.some.inj hs1).symm
    rw [this, w5] at hsig
    omega
  · intro hex
    have hex2 : ∃ k, k ≤ 9 ∧ ¬ buffer.length > remaining_at C env s k := hex
    classical
    have hmin := Nat.find_spec hex2
    have hlt : ∀ j, j < Nat.find hex2 → buffer.length > remaining_at C env s j := by
      intro j hj
      by_contra hc
      exact Nat.find_min hex2 hj ⟨by omega, hc⟩
    refine ⟨_, hexit (Nat.find hex2) hmin.1 hlt hmin.2, ?_⟩
    obtain ⟨⟨_, _, _, _, v5, _⟩, _⟩ := after_sleeps_writer_only C env (Nat.find hex2) s
    simp only [v5]

/-- Witness of C17: 6 bytes unread in the program's buffer, a payload of 10
bytes, a writer that pops the 6 bytes during the 10th sleep. The recomputation
after the 10th sleep gives 4294967295, the test would pass, and the payload is
abandoned. -/
theorem send_packet_written_iff_witness :
    10 ≤ 10 ∧
      (∀ j, j ≤ 9 → [1, 2, 3, 4, 5, 6, 7, 8, 9, 10].length >
        remaining_at SERIAL_TX_BUFFER_SIZE (pops_at 9 6) (tx_at 6 0) j) ∧
      remaining_at SERIAL_TX_BUFFER_SIZE (pops_at 9 6) (tx_at 6 0) 10 = 4294967295 ∧
      send_packet SERIAL_TX_BUFFER_SIZE 10 (pops_at 9 6) [1, 2, 3, 4, 5, 6, 7, 8, 9, 10]
        (tx_at 6 0) = some (after_sleeps SERIAL_TX_BUFFER_SIZE (pops_at 9 6) 10 (tx_at 6 0)) ∧
      tx_view SERIAL_TX_BUFFER_SIZE
        (after_sleeps SERIAL_TX_BUFFER_SIZE (pops_at 9 6) 10 (tx_at 6 0)) = (6, 6, 10, 0, 0) :=
  ⟨by decide, by decide, by decide,
    ((send_packet_written_iff SERIAL_TX_BUFFER_SIZE 10 (pops_at 9 6)
      [1, 2, 3, 4, 5, 6, 7, 8, 9, 10] (tx_at 6 0) (by decide)).2.1 (by decide)).1,
    by decide⟩

/-- C18: `k` bytes are pushed by the reader into an inbound buffer that is empty
at a position `p < C`, with no pop in between, and the processor then drains.
The drain hands out exactly the last `k % C` of the `k` bytes, in order; with
`k = C` the cursors are equal after the pushes and nothing is handed out. -/
theorem inbound_overrun (C p : Nat) (bytes : List Nat) (s : Comm) (hp : p < C)
    (hr : s.rx.read_pos = p) (hw : s.rx.write_pos = p) :
    (∃ s2, serial_process_thread_drain C (bytes.length % C + 1)
          (bytes.foldl (fun st b => serial_read_thread_iter C [b] st) s) = some s2 ∧
        s2.framer_rx = s.framer_rx ++ bytes.drop (bytes.length - bytes.length % C) ∧
        s2.framer_rx.length = s.framer_rx.length + bytes.length % C ∧
        s2.rx.read_pos = s2.rx.write_pos) ∧
      (bytes.length = C →
        (bytes.foldl (fun st b => serial_read_thread_iter C [b] st) s).rx.read_pos =
          (bytes.foldl (fun st b => serial_read_thread_iter C [b] st) s).rx.write_pos ∧
        serial_process_thread_drain C 1
          (bytes.foldl (fun st b => serial_read_thread_iter C [b] st) s) =
          some (bytes.foldl (fun st b => serial_read_thread_iter C [b] st) s) ∧
        (bytes.foldl (fun st b => serial_read_thread_iter C [b] st) s).framer_rx =
          s.framer_rx) := by
  have hrange : in_range C s.rx := ⟨by omega, by omega⟩
  obtain ⟨e1, e2⟩ := read_iters_rx C bytes s
  obtain ⟨a, b, c⟩ := unread_overrun C bytes.length bytes s.rx rfl hrange (hr.trans hw.symm)
  have hdrain := process_drain_spec C (bytes.length % C)
    (bytes.foldl (fun st b => serial_read_thread_iter C [b] st) s) (bytes.length % C + 1)
    (by rw [e1]; exact a) (by rw [e1, b]) (by omega)
  constructor
  · refine ⟨_, hdrain, ?_, ?_, rfl⟩
    · simp only [e1, e2, c]
    · simp only [e1, e2, c, List.length_append, List.length_drop]
      have := Nat.mod_le bytes.length C
      omega
  · intro hlen
    have h0 : occupancy C (bytes.foldl (push_byte C) s.rx) = 0 := by
      rw [b, hlen, Nat.mod_self]
    have heq := (occupancy_eq_zero_iff C _ a).mp h0
    refine ⟨by rw [e1]; exact heq, ?_, e2⟩
    simp only [serial_process_thread_drain, e1, heq, ne_eq, not_true_eq_false, if_false]

/-- Witness of C18: capacity 8, the buffer empty at position 6, eleven bytes
pushed: the drain hands out the last three. -/
theorem inbound_overrun_witness :
    (6 < 8 ∧ (cursors_at 6).rx.read_pos = 6 ∧ (cursors_at 6).rx.write_pos = 6) ∧
      ∃ s2, serial_process_thread_drain 8 ([1, 2, 3, 4, 5, 6, 7, 8, 9, 10, 11].length % 8 + 1)
          ([1, 2, 3, 4, 5, 6, 7, 8, 9, 10, 11].foldl
            (fun st b => serial_read_thread_iter 8 [b] st) (cursors_at 6)) = some s2 ∧
        s2.framer_rx = [9, 10, 11] :=
  ⟨⟨by decide, rfl, rfl⟩, by
    obtain ⟨⟨s2, h1, h2, _⟩, _⟩ :=
      inbound_overrun 8 6 [1, 2, 3, 4, 5, 6, 7, 8, 9, 10, 11] (cursors_at 6) (by decide) rfl rfl
    exact ⟨s2, h1, h2.trans (by decide)⟩⟩

end CommUsb
